import Mathlib

/-!
Shallow embedding of the Project Estimation Engine of `backend/server.py`
(IT Project Planning Assistant).

The engine part of the backend consists of
  * `calculate_pert_estimate` (three-point PERT duration),
  * `calculate_critical_path` (networkx `DiGraph` construction plus
    `nx.dag_longest_path(G, weight='duration')` inside a bare `try/except`
    that returns `[]` on any exception), and
  * the estimation slice of the `analyze_project` endpoint (the loop that
    applies per-task defaults, computes PERT durations and role costs,
    builds the dependency dict, calls `calculate_critical_path`, and
    assembles the final estimate).

Numbers are modelled as `ℚ`.  JSON scalar fields that may be non-numeric in
the untrusted upstream task list are modelled by `JVal` (number or string);
Python's `dict.get(key, default)` is modelled with `Option.getD`; a Python
`TypeError` escaping the per-task loop (and being turned into an HTTP 500 by
the endpoint's catch-all `except`) is modelled by `Except.error`.

The networkx functions used by the source are embedded at the level of their
actual library implementation (networkx 3.x):
  * `DiGraph` keeps nodes and edges in insertion order; `add_edge` silently
    creates missing endpoint nodes (without a `duration` attribute);
  * `topological_sort` enumerates Kahn generations and fails (raising
    `NetworkXUnfeasible`, here `none`) when a cycle leaves nodes with
    positive residual in-degree;
  * `dag_longest_path(G, weight='duration')` reads the weight from the
    **edge** data dictionaries.  The source stores `duration` as a **node**
    attribute, so every edge falls back to `default_weight = 1`; the relaxed
    distances are therefore hop counts.  Python `max` over ties keeps the
    first maximal element, and `dict` iteration follows insertion order;
    both are modelled explicitly.

Descriptive pass-through fields of the source records (`title`,
`description`, `category`, `acceptance_criteria`, `risk`, `priority`) do not
enter any computation and are elided from the embedded records, as are the
ephemeral generated estimate id, the `created_at` timestamp and the constant
`resource_allocation` echo of the rate table.  `datetime.now()` is an
explicit parameter `now`, and the `uuid.uuid4()` supply is an explicit
parameter `fresh : ℕ → String` consumed once per processed task (Python
evaluates the `dict.get` default eagerly, so one uuid is drawn per task).
-/

namespace ITPlanner

/-- Error text standing in for a Python `TypeError` raised inside the
per-task loop of `analyze_project`. -/
def typeError : String := "TypeError"

/-- Role name substituted by `role_data.get("role", "Developer")` when the
allocation omits the `role` key. -/
def defaultRole : String := "Developer"

/-- A JSON scalar as it may arrive from the untrusted upstream producer:
either a number or a non-numeric value (represented by a string, the shape
used by the claims). -/
inductive JVal where
  | num (q : ℚ)
  | str (s : String)
deriving DecidableEq

/-- One entry of a task's `roles` list: `role` and `hours_most_likely` keys,
each possibly missing (`dict.get` defaults apply).  The optimistic and
pessimistic hour fields are retained by the source only as pass-through data
and never read by the engine, so they are elided. -/
structure RoleData where
  role : Option String
  hours_most_likely : Option JVal
deriving DecidableEq

/-- The slice of an upstream task descriptor read by the estimation loop of
`analyze_project`: `id`, the three duration fields, `dependencies`, and
`roles`.  A missing key is `none`. -/
structure TaskData where
  id : Option String
  optimistic_days : Option JVal
  most_likely_days : Option JVal
  pessimistic_days : Option JVal
  dependencies : List String
  roles : List RoleData
deriving DecidableEq

/-- The computed slice of the source's `TaskEstimate` pydantic model. -/
structure TaskEstimate where
  id : String
  dependencies : List String
  roles : List RoleData
  optimistic_days : ℚ
  most_likely_days : ℚ
  pessimistic_days : ℚ
  expected_days : ℚ
deriving DecidableEq

/-- The computed slice of the source's `ProjectEstimate` pydantic model
(dates are rationals: `end_date = start_date + total_duration_days`). -/
structure ProjectEstimate where
  tasks : List TaskEstimate
  total_cost : ℚ
  total_duration_days : ℚ
  critical_path : List String
  start_date : ℚ
  end_date : ℚ
deriving DecidableEq

/-- `DEFAULT_RATES` of the source, as an insertion-ordered table. -/
def DEFAULT_RATES : List (String × ℚ) :=
  [ ("Junior Developer", 400)
  , ("Mid Developer", 800)
  , ("Senior Developer", 1500)
  , ("Architect", 2500)
  , ("QA Engineer", 600)
  , ("Project Manager", 1800)
  , ("UI/UX Designer", 1200)
  , ("DevOps Engineer", 1800) ]

/-- `calculate_pert_estimate(optimistic, most_likely, pessimistic)`. -/
def calculate_pert_estimate (optimistic most_likely pessimistic : ℚ) : ℚ :=
  (optimistic + 4 * most_likely + pessimistic) / 6

/-- `calculate_pert_estimate` applied to untrusted JSON scalars, with
Python's arithmetic semantics: if any of the three operands is non-numeric
the expression `(o + 4*m + p)/6` raises a `TypeError` (string/number
addition fails immediately; three strings concatenate but then fail at the
division).  On success the numeric triple and the PERT value are returned. -/
def pertJ : JVal → JVal → JVal → Except String (ℚ × ℚ × ℚ × ℚ)
  | JVal.num o, JVal.num m, JVal.num p => Except.ok (o, m, p, calculate_pert_estimate o m p)
  | _, _, _ => Except.error typeError

/-- `rates.get(role, dflt)`: exact string match in the rate table, default
rate for unmapped role names. -/
def lookupRate (rates : List (String × ℚ)) (dflt : ℚ) (role : String) : ℚ :=
  match rates.find? (fun rv => rv.1 == role) with
  | some rv => rv.2
  | none => dflt

/-- One iteration of the cost loop of `analyze_project`:
`role = role_data.get("role", "Developer")`,
`hours = role_data.get("hours_most_likely", 40)`,
`rate = DEFAULT_RATES.get(role, 1000)`, contribution `hours * rate`.
A non-numeric `hours` value makes `task_cost += hours * rate` raise a
`TypeError` (string-repetition followed by number-plus-string). -/
def roleCost (rates : List (String × ℚ)) (dflt : ℚ) (rd : RoleData) : Except String ℚ :=
  let role := rd.role.getD defaultRole
  let rate := lookupRate rates dflt role
  match rd.hours_most_likely.getD (JVal.num 40) with
  | JVal.num h => Except.ok (h * rate)
  | JVal.str _ => Except.error typeError

/-- The `task_cost` accumulation over a task's `roles` list. -/
def taskCost (rates : List (String × ℚ)) (dflt : ℚ) (roles : List RoleData) :
    Except String ℚ :=
  roles.foldlM (fun acc rd => (roleCost rates dflt rd).map (fun c => acc + c)) 0

/-- Spec-side per-role cost formula (§4.2 of the spec): most-likely hours
(default 40) times the looked-up hourly rate, with a junk value of 0 hours
for the non-numeric case that the source would abort on.  Used only to state
refinement of the source's `roleCost` against the spec's words. -/
def roleCostVal (rates : List (String × ℚ)) (dflt : ℚ) (rd : RoleData) : ℚ :=
  (match rd.hours_most_likely.getD (JVal.num 40) with
   | JVal.num h => h
   | JVal.str _ => 0) * lookupRate rates dflt (rd.role.getD defaultRole)

/-- Spec-side task cost: sum of per-role costs. -/
def taskCostVal (rates : List (String × ℚ)) (dflt : ℚ) (roles : List RoleData) : ℚ :=
  (roles.map (roleCostVal rates dflt)).sum

/-- A networkx `DiGraph` as used by `calculate_critical_path`: nodes in
insertion order, each carrying an optional `duration` attribute, and edges
in insertion order (no edge data is ever attached by the source). -/
structure Digraph where
  nodes : List (String × Option ℚ)
  edges : List (String × String)
deriving DecidableEq

/-- The node ids of a graph, in insertion order. -/
def nodeIds (G : Digraph) : List String := G.nodes.map Prod.fst

/-- Node creation performed implicitly by `add_edge` for a missing endpoint:
the node is appended without attributes. -/
def ensureNode (G : Digraph) (v : String) : Digraph :=
  if (nodeIds G).contains v then G
  else { G with nodes := G.nodes ++ [(v, none)] }

/-- `G.add_node(v, duration=d)`: appends a fresh node, or updates the
`duration` attribute of an existing one in place. -/
def add_node (G : Digraph) (v : String) (d : ℚ) : Digraph :=
  if (nodeIds G).contains v then
    { G with nodes := G.nodes.map (fun nd => if nd.1 == v then (nd.1, some d) else nd) }
  else { G with nodes := G.nodes ++ [(v, some d)] }

/-- `G.add_edge(u, v)`: silently creates missing endpoint nodes, then
records the edge (a repeated edge is not duplicated in a `DiGraph`). -/
def add_edge (G : Digraph) (u v : String) : Digraph :=
  let G1 := ensureNode G u
  let G2 := ensureNode G1 v
  if G2.edges.contains (u, v) then G2
  else { G2 with edges := G2.edges ++ [(u, v)] }

/-- The graph-construction prefix of `calculate_critical_path`: one
`add_node(task["id"], duration=task["expected_days"])` per task, then
`add_edge(dep, task_id)` for every declared dependency. -/
def buildGraph (tasks : List (String × ℚ)) (dependencies : List (String × List String)) :
    Digraph :=
  let G1 := tasks.foldl (fun G t => add_node G t.1 t.2) { nodes := [], edges := [] }
  dependencies.foldl (fun G td => td.2.foldl (fun H dep => add_edge H dep td.1) G) G1

/-- `G.neighbors(u)` (successors), in edge insertion order. -/
def succs (G : Digraph) (u : String) : List String :=
  (G.edges.filter (fun e => e.1 == u)).map Prod.snd

/-- `G.pred[v]` keys, in edge insertion order. -/
def preds (G : Digraph) (v : String) : List String :=
  (G.edges.filter (fun e => e.2 == v)).map Prod.fst

/-- `G.in_degree(v)`. -/
def indeg (G : Digraph) (v : String) : ℕ := (preds G v).length

/-- The body of the `for child in G.neighbors(node)` loop of networkx
`topological_generations`: decrement the residual in-degree of `c`; when it
reaches zero move `c` from the in-degree map to the next generation.  The
`none` branch mirrors the `KeyError` guard of the library, which is
unreachable while the graph is not mutated during iteration. -/
def stepChild (acc : List (String × ℕ) × List String) (c : String) :
    List (String × ℕ) × List String :=
  match acc.1.find? (fun p => p.1 == c) with
  | some p =>
      if p.2 = 1 then (acc.1.filter (fun q => !(q.1 == c)), acc.2 ++ [c])
      else (acc.1.map (fun q => if q.1 == c then (q.1, q.2 - 1) else q), acc.2)
  | none => acc

/-- Processing of one node of the current generation: walk its successors. -/
def stepNode (G : Digraph) (acc : List (String × ℕ) × List String) (n : String) :
    List (String × ℕ) × List String :=
  (succs G n).foldl stepChild acc

/-- The `while zero_indegree` loop of `topological_generations`, fuelled.
When a generation is empty the loop ends; a non-empty residual in-degree map
then means a cycle and networkx raises `NetworkXUnfeasible` (`none` here).
The fuel `|nodes| + 1` is sufficient because every non-empty generation
moves at least one node into the accumulated order. -/
def topoLoop (G : Digraph) :
    ℕ → List (String × ℕ) → List String → List String → Option (List String)
  | 0, _, _, _ => none
  | _ + 1, m, [], accum => if m.isEmpty then some accum else none
  | fuel + 1, m, z :: zs, accum =>
      let next := (z :: zs).foldl (stepNode G) (m, [])
      topoLoop G fuel next.1 next.2 (accum ++ z :: zs)

/-- networkx `topological_sort` (the concatenation of the Kahn generations),
or `none` when the graph has a cycle. -/
def topological_sort (G : Digraph) : Option (List String) :=
  let degs := G.nodes.map (fun nd => (nd.1, indeg G nd.1))
  topoLoop G (G.nodes.length + 1) (degs.filter (fun p => p.2 != 0))
    ((degs.filter (fun p => p.2 == 0)).map Prod.fst) []

/-- One comparison step of Python `max(us, key=lambda x: x[0])`: a strictly
greater scored element replaces the current best, so ties keep the earlier
element. -/
def maxStep (acc : Option (ℕ × String)) (x : ℕ × String) : Option (ℕ × String) :=
  match acc with
  | none => some x
  | some b => if b.1 < x.1 then some x else some b

/-- Python `max(us, key=lambda x: x[0])`: the first maximal element. -/
def maxFirst (l : List (ℕ × String)) : Option (ℕ × String) :=
  l.foldl maxStep none

/-- One relaxation of `dag_longest_path`: the stored `(length, predecessor)`
for `v`, computed from the predecessors already in the table.  Because the
source never attaches edge data, `data.get('duration', 1)` is always the
default weight 1, so lengths are hop counts. -/
def distEntry (G : Digraph) (dist : List (String × ℕ × String)) (v : String) : ℕ × String :=
  (maxFirst ((preds G v).filterMap (fun u =>
    (dist.find? (fun p => p.1 == u)).map (fun p => (p.2.1 + 1, u))))).getD (0, v)

/-- The relaxation loop of `nx.dag_longest_path(G, weight='duration')`.
Each `dist` entry is `(v, (length, predecessor))`, inserted in topological
order, mirroring Python `dict` insertion order. -/
def distPass (G : Digraph) (topo : List String) : List (String × ℕ × String) :=
  topo.foldl (fun dist v => dist ++ [(v, distEntry G dist v)]) []

/-- One comparison step of Python `max(dist, key=lambda x: dist[x][0])`. -/
def argStep (acc : Option (String × ℕ × String)) (p : String × ℕ × String) :
    Option (String × ℕ × String) :=
  match acc with
  | none => some p
  | some b => if b.2.1 < p.2.1 then some p else some b

/-- Python `max(dist, key=lambda x: dist[x][0])`: the first key attaining
the maximal stored length, in insertion order. -/
def argmaxDist (dist : List (String × ℕ × String)) : Option String :=
  (dist.foldl argStep none).map Prod.fst

/-- The predecessor-chasing loop of `dag_longest_path`: append the current
node, move to its stored predecessor, stop at a self-pointer.  The `none`
branch is unreachable (every visited node has a `dist` entry). -/
def buildPath (dist : List (String × ℕ × String)) : ℕ → String → List String
  | 0, _ => []
  | fuel + 1, v =>
      match dist.find? (fun p => p.1 == v) with
      | some p => if p.2.2 == v then [v] else buildPath dist fuel p.2.2 ++ [v]
      | none => [v]

/-- `nx.dag_longest_path(G, weight='duration')`: `[]` on the empty graph,
`none` (an exception) on a cyclic graph, otherwise the reconstructed
hop-longest path. -/
def dag_longest_path (G : Digraph) : Option (List String) :=
  if G.nodes.isEmpty then some [] else
  match topological_sort G with
  | none => none
  | some topo =>
      let dist := distPass G topo
      match argmaxDist dist with
      | none => some []
      | some v => some (buildPath dist (dist.length + 1) v)

/-- `calculate_critical_path(tasks, dependencies)`: build the graph, run
`dag_longest_path`, and let the bare `except` turn any exception into `[]`. -/
def calculate_critical_path (tasks : List (String × ℚ))
    (dependencies : List (String × List String)) : List String :=
  match dag_longest_path (buildGraph tasks dependencies) with
  | some p => p
  | none => []

/-- Python `dict` assignment `m[k] = v` on an insertion-ordered dict. -/
def updateAssoc (m : List (String × List String)) (k : String) (v : List String) :
    List (String × List String) :=
  if m.any (fun p => p.1 == k) then m.map (fun p => if p.1 == k then (p.1, v) else p)
  else m ++ [(k, v)]

/-- The per-task loop of `analyze_project`: defaults for missing duration
fields (5, 10, 15), PERT expected duration, role-cost accumulation, task id
(`task_data.get("id", str(uuid.uuid4()))` — one uuid drawn per task), and
the resulting `(TaskEstimate, task_cost)` pairs in input order.  The first
raised `TypeError` aborts the whole run, matching the endpoint's catch-all
`except`. -/
def processTasks (rates : List (String × ℚ)) (dflt : ℚ) (fresh : ℕ → String) :
    ℕ → List TaskData → Except String (List (TaskEstimate × ℚ))
  | _, [] => Except.ok []
  | k, td :: rest => do
      let q ← pertJ (td.optimistic_days.getD (JVal.num 5))
                    (td.most_likely_days.getD (JVal.num 10))
                    (td.pessimistic_days.getD (JVal.num 15))
      let cost ← taskCost rates dflt td.roles
      let te : TaskEstimate :=
        { id := td.id.getD (fresh k)
          dependencies := td.dependencies
          roles := td.roles
          optimistic_days := q.1
          most_likely_days := q.2.1
          pessimistic_days := q.2.2.1
          expected_days := q.2.2.2 }
      let restPairs ← processTasks rates dflt fresh (k + 1) rest
      Except.ok ((te, cost) :: restPairs)

/-- The `dependencies` dict as `analyze_project` builds it while looping
over the tasks: `dependencies[task.id] = task.dependencies`, in order. -/
def engineDeps (tasks : List TaskEstimate) : List (String × List String) :=
  tasks.foldl (fun m t => updateAssoc m t.id t.dependencies) []

/-- The aggregation `analyze_project` performs after its per-task loop:
total cost, `calculate_critical_path` on the `(id, expected_days)` dicts
and the `dependencies` dict, and the duration fallback of line 461 (sum
along the critical path when it is non-empty, sum over all tasks
otherwise), finishing with `end_date = start_date + total_duration`. -/
def assembleEstimate (now : ℚ) (pairs : List (TaskEstimate × ℚ)) : ProjectEstimate :=
  let tasks := pairs.map Prod.fst
  let critical_path :=
    calculate_critical_path (tasks.map (fun t => (t.id, t.expected_days))) (engineDeps tasks)
  let total_duration :=
    if critical_path.isEmpty then (tasks.map (fun t => t.expected_days)).sum
    else ((tasks.filter (fun t => critical_path.contains t.id)).map
      (fun t => t.expected_days)).sum
  { tasks := tasks
    total_cost := (pairs.map Prod.snd).sum
    total_duration_days := total_duration
    critical_path := critical_path
    start_date := now
    end_date := now + total_duration }

/-- The estimation slice of `analyze_project`, parameterized by the rate
table and default rate (instantiated with `DEFAULT_RATES` and 1000 by the
source), the uuid supply, and the invocation time `now`: the per-task loop
followed by the aggregation, with the first per-task exception aborting the
whole run. -/
def analyze_engine (rates : List (String × ℚ)) (dflt : ℚ) (fresh : ℕ → String) (now : ℚ)
    (task_datas : List TaskData) : Except String ProjectEstimate :=
  (processTasks rates dflt fresh 0 task_datas).map (assembleEstimate now)

/-- `analyze_project` as shipped: the engine with the hard-coded
`DEFAULT_RATES` table and default rate 1000. -/
def analyze_project (fresh : ℕ → String) (now : ℚ) (task_datas : List TaskData) :
    Except String ProjectEstimate :=
  analyze_engine DEFAULT_RATES 1000 fresh now task_datas

/-- The total-duration aggregation of line 461 of the source, over raw
`(id, expected_days)` dicts: sum of `expected_days` over tasks whose id lies
on the given path. -/
def pathDuration (tasks : List (String × ℚ)) (path : List String) : ℚ :=
  ((tasks.filter (fun t => path.contains t.1)).map Prod.snd).sum

/-- A JSON field is absent or numeric. -/
def numJ : Option JVal → Bool
  | none => true
  | some (JVal.num _) => true
  | some (JVal.str _) => false

/-- Every field of the task record that the engine does arithmetic on is
absent or numeric. -/
def numericTD (td : TaskData) : Bool :=
  numJ td.optimistic_days && numJ td.most_likely_days && numJ td.pessimistic_days &&
    td.roles.all (fun rd => numJ rd.hours_most_likely)

/-- Whether an engine run completed (no exception reached the endpoint's
catch-all `except`). -/
def engineOk : Except String ProjectEstimate → Bool
  | Except.ok _ => true
  | Except.error _ => false

/-- The task list of a completed run (junk `[]` on a failed one). -/
def resultTasks : Except String ProjectEstimate → List TaskEstimate
  | Except.ok r => r.tasks
  | Except.error _ => []

/-- The dependency graph the engine hands to `dag_longest_path`. -/
def engineGraph (tasks : List TaskEstimate) : Digraph :=
  buildGraph (tasks.map (fun t => (t.id, t.expected_days))) (engineDeps tasks)

/-- The stored hop length of a node in the relaxation table (junk 0 when
absent). -/
def dlen (dist : List (String × ℕ × String)) (v : String) : ℕ :=
  match dist.find? (fun p => p.1 == v) with
  | some p => p.2.1
  | none => 0

/-- Structural invariant of the relaxation table: every entry is either a
root self-pointer of length 0 or points to a predecessor entry one hop
shorter. -/
def distInv (dist : List (String × ℕ × String)) : Prop :=
  ∀ v n u, (v, n, u) ∈ dist → (u = v ∧ n = 0) ∨ (1 ≤ n ∧ ∃ w, (u, n - 1, w) ∈ dist)

/-- Two mutually dependent tasks with all duration fields missing. -/
def cycTDs : List TaskData :=
  [ { id := some ("T1"), optimistic_days := none, most_likely_days := none,
      pessimistic_days := none, dependencies := [("T2")], roles := [] }
  , { id := some ("T2"), optimistic_days := none, most_likely_days := none,
      pessimistic_days := none, dependencies := [("T1")], roles := [] } ]

/-- The task estimate the engine derives for the first task of `cycTDs`. -/
def cycTaskA : TaskEstimate :=
  { id := ("T1"), dependencies := [("T2")], roles := [], optimistic_days := 5
    most_likely_days := 10, pessimistic_days := 15, expected_days := 10 }

/-- The task estimate the engine derives for the second task of `cycTDs`. -/
def cycTaskB : TaskEstimate :=
  { id := ("T2"), dependencies := [("T1")], roles := [], optimistic_days := 5
    most_likely_days := 10, pessimistic_days := 15, expected_days := 10 }

/-- The estimate the engine produces on `cycTDs` at time 0: empty critical
path and the fully serialized duration `10 + 10 = 20`. -/
def cycEstimate : ProjectEstimate :=
  { tasks := [cycTaskA, cycTaskB], total_cost := 0, total_duration_days := 20
    critical_path := [], start_date := 0, end_date := 20 }

/-- The rate table of the spec's worked cost example. -/
def exRates : List (String × ℚ) := [(("A"), 400), (("B"), 800)]

/-- The role allocations of the spec's worked cost example: 10 most-likely
hours of the mapped role `A`, 5 of the unmapped role `C`. -/
def exRoles : List RoleData :=
  [ { role := some ("A"), hours_most_likely := some (JVal.num 10) }
  , { role := some ("C"), hours_most_likely := some (JVal.num 5) } ]

/-- A one-task list carrying the example roles, all durations defaulted. -/
def exTds : List TaskData :=
  [ { id := some ("T1"), optimistic_days := none, most_likely_days := none,
      pessimistic_days := none, dependencies := [], roles := exRoles } ]

/-- The estimate the engine produces on `exTds` with `exRates` and default
rate 1000 at time 0. -/
def exEstimate : ProjectEstimate :=
  { tasks := [ { id := ("T1"), dependencies := [], roles := exRoles, optimistic_days := 5
                 most_likely_days := 10, pessimistic_days := 15, expected_days := 10 } ]
    total_cost := 9000, total_duration_days := 10, critical_path := [("T1")]
    start_date := 0, end_date := 10 }

/-- Two tasks with an honest dependency `T2 → T1` and ids present. -/
def c3TDs : List TaskData :=
  [ { id := some ("T1"), optimistic_days := none, most_likely_days := none,
      pessimistic_days := none, dependencies := [], roles := [] }
  , { id := some ("T2"), optimistic_days := none, most_likely_days := none,
      pessimistic_days := none, dependencies := [("T1")], roles := [] } ]

/-- The task estimate the engine derives for the first task of `c3TDs`. -/
def c3TaskA : TaskEstimate :=
  { id := ("T1"), dependencies := [], roles := [], optimistic_days := 5
    most_likely_days := 10, pessimistic_days := 15, expected_days := 10 }

/-- The task estimate the engine derives for the second task of `c3TDs`. -/
def c3TaskB : TaskEstimate :=
  { id := ("T2"), dependencies := [("T1")], roles := [], optimistic_days := 5
    most_likely_days := 10, pessimistic_days := 15, expected_days := 10 }

/-- The estimate the engine produces on `c3TDs` at time 0. -/
def c3Estimate : ProjectEstimate :=
  { tasks := [c3TaskA, c3TaskB], total_cost := 0, total_duration_days := 20
    critical_path := [("T1"), ("T2")], start_date := 0, end_date := 20 }

/-- Reduction of `Except.map` on a success, without touching binders. -/
theorem except_map_ok {α β : Type} (f : α → β) (x : α) :
    Except.map f (Except.ok x : Except String α) = Except.ok (f x) := rfl

/-- Reduction of `Except.map` on a failure. -/
theorem except_map_error {α β : Type} (f : α → β) (e : String) :
    Except.map f (Except.error e : Except String α) = Except.error e := rfl

/-- Reduction of monadic bind on a success. -/
theorem except_bind_ok {α β : Type} (x : α) (k : α → Except String β) :
    (Except.ok x : Except String α) >>= k = k x := rfl

/-- Reduction of monadic bind on a failure. -/
theorem except_bind_error {α β : Type} (e : String) (k : α → Except String β) :
    (Except.error e : Except String α) >>= k = Except.error e := rfl

/-- A `dict.get` default on an absent-or-numeric field yields a number,
equal to the default when the field is absent. -/
theorem numJ_getD (x : Option JVal) (d : ℚ) (h : numJ x = true) :
    ∃ q, x.getD (JVal.num d) = JVal.num q ∧ (x = none → q = d) := by
  cases x with
  | none => exact ⟨d, rfl, fun _ => rfl⟩
  | some v =>
    cases v with
    | num q => exact ⟨q, rfl, by simp⟩
    | str s => simp [numJ] at h

/-- With numeric (or absent) hours the role-cost step succeeds and computes
the spec-side value. -/
theorem roleCost_ok_of_numJ (rates : List (String × ℚ)) (dflt : ℚ) (rd : RoleData)
    (h : numJ rd.hours_most_likely = true) :
    roleCost rates dflt rd = Except.ok (roleCostVal rates dflt rd) := by
  obtain ⟨q, hq, _⟩ := numJ_getD rd.hours_most_likely 40 h
  simp [roleCost, roleCostVal, hq]

/-- A successful role-cost step returns exactly the spec-side value. -/
theorem roleCost_ok_val (rates : List (String × ℚ)) (dflt : ℚ) (rd : RoleData) (v : ℚ)
    (h : roleCost rates dflt rd = Except.ok v) : v = roleCostVal rates dflt rd := by
  cases hx : rd.hours_most_likely.getD (JVal.num 40) with
  | num q =>
    simp [roleCost, hx] at h
    simp [roleCostVal, hx, ← h]
  | str s => simp [roleCost, hx] at h

/-- A successful cost fold returns its accumulator plus the spec-side sum. -/
theorem costFold_ok (rates : List (String × ℚ)) (dflt : ℚ) :
    ∀ (roles : List RoleData) (acc c : ℚ),
      List.foldlM (fun a rd => (roleCost rates dflt rd).map (fun x => a + x)) acc roles
        = Except.ok c →
      c = acc + taskCostVal rates dflt roles := by
  intro roles
  induction roles with
  | nil =>
    intro acc c h
    simp [List.foldlM, pure, Except.pure] at h
    simp [taskCostVal, ← h]
  | cons rd rest ih =>
    intro acc c h
    rw [List.foldlM_cons] at h
    cases hr : roleCost rates dflt rd with
    | error e => rw [hr] at h; simp [Except.map, bind, Except.bind] at h
    | ok v =>
      rw [hr] at h
      simp only [Except.map, bind, Except.bind] at h
      have hc := ih (acc + v) c h
      have hv := roleCost_ok_val rates dflt rd v hr
      subst hv
      simp only [taskCostVal, List.map_cons, List.sum_cons] at hc ⊢
      rw [hc]
      ring

/-- A successful task cost equals the spec-side per-task sum. -/
theorem taskCost_ok_val (rates : List (String × ℚ)) (dflt : ℚ) (roles : List RoleData) (c : ℚ)
    (h : taskCost rates dflt roles = Except.ok c) : c = taskCostVal rates dflt roles := by
  have := costFold_ok rates dflt roles 0 c h
  simpa using this

/-- With numeric (or absent) hours everywhere, the cost fold is total. -/
theorem costFold_total (rates : List (String × ℚ)) (dflt : ℚ) :
    ∀ (roles : List RoleData) (acc : ℚ),
      (∀ rd ∈ roles, numJ rd.hours_most_likely = true) →
      List.foldlM (fun a rd => (roleCost rates dflt rd).map (fun x => a + x)) acc roles
        = Except.ok (acc + taskCostVal rates dflt roles) := by
  intro roles
  induction roles with
  | nil => intro acc _; simp [List.foldlM, pure, Except.pure, taskCostVal]
  | cons rd rest ih =>
    intro acc h
    rw [List.foldlM_cons, roleCost_ok_of_numJ rates dflt rd (h rd (by simp)), except_map_ok,
      except_bind_ok, ih (acc + roleCostVal rates dflt rd) (fun x hx => h x (by simp [hx]))]
    simp only [taskCostVal, List.map_cons, List.sum_cons]
    rw [add_assoc]

/-- With numeric (or absent) hours everywhere, `taskCost` succeeds with the
spec-side value. -/
theorem taskCost_total (rates : List (String × ℚ)) (dflt : ℚ) (roles : List RoleData)
    (h : ∀ rd ∈ roles, numJ rd.hours_most_likely = true) :
    taskCost rates dflt roles = Except.ok (taskCostVal rates dflt roles) := by
  have := costFold_total rates dflt roles 0 h
  simpa [taskCost] using this

/-- On a task list whose arithmetic fields are all numeric or absent, the
per-task loop succeeds, and each produced estimate carries the documented
defaults 5/10/15 wherever the corresponding field was absent. -/
theorem processTasks_total (rates : List (String × ℚ)) (dflt : ℚ) (fresh : ℕ → String) :
    ∀ (tds : List TaskData), (∀ td ∈ tds, numericTD td = true) → ∀ k,
      ∃ l, processTasks rates dflt fresh k tds = Except.ok l ∧
        List.Forall₂ (fun td (te : TaskEstimate) =>
          (td.optimistic_days = none → te.optimistic_days = 5) ∧
          (td.most_likely_days = none → te.most_likely_days = 10) ∧
          (td.pessimistic_days = none → te.pessimistic_days = 15)) tds (l.map Prod.fst) := by
  intro tds
  induction tds with
  | nil => exact fun _ k => ⟨[], rfl, by simp⟩
  | cons td rest ih =>
    intro h k
    have hhead := h td (by simp)
    simp only [numericTD, Bool.and_eq_true] at hhead
    obtain ⟨⟨⟨h1, h2⟩, h3⟩, h4⟩ := hhead
    obtain ⟨o, hoeq, hod⟩ := numJ_getD td.optimistic_days 5 h1
    obtain ⟨m, hmeq, hmd⟩ := numJ_getD td.most_likely_days 10 h2
    obtain ⟨p, hpeq, hpd⟩ := numJ_getD td.pessimistic_days 15 h3
    have hroles : ∀ rd ∈ td.roles, numJ rd.hours_most_likely = true := by
      intro rd hrd
      have := List.all_eq_true.mp h4 rd hrd
      simpa using this
    obtain ⟨lr, hlr, hfa⟩ := ih (fun x hx => h x (by simp [hx])) (k + 1)
    refine ⟨({ id := td.id.getD (fresh k), dependencies := td.dependencies, roles := td.roles,
               optimistic_days := o, most_likely_days := m, pessimistic_days := p,
               expected_days := calculate_pert_estimate o m p },
             taskCostVal rates dflt td.roles) :: lr, ?_, ?_⟩
    · simp only [processTasks, hoeq, hmeq, hpeq, pertJ, taskCost_total rates dflt td.roles hroles,
        hlr, bind, Except.bind]
    · simp only [List.map_cons]
      exact List.Forall₂.cons ⟨fun hn => hod hn, fun hn => hmd hn, fun hn => hpd hn⟩ hfa

/-- A successful per-task loop produces exactly the spec-side cost list. -/
theorem processTasks_costs (rates : List (String × ℚ)) (dflt : ℚ) (fresh : ℕ → String) :
    ∀ (tds : List TaskData) (k : ℕ) (l : List (TaskEstimate × ℚ)),
      processTasks rates dflt fresh k tds = Except.ok l →
      l.map Prod.snd = tds.map (fun td => taskCostVal rates dflt td.roles) := by
  intro tds
  induction tds with
  | nil =>
    intro k l h
    simp only [processTasks] at h
    simp [← Except.ok.inj h]
  | cons td rest ih =>
    intro k l h
    simp only [processTasks] at h
    cases hq : pertJ (td.optimistic_days.getD (JVal.num 5)) (td.most_likely_days.getD (JVal.num 10))
        (td.pessimistic_days.getD (JVal.num 15)) with
    | error e => rw [hq] at h; simp [bind, Except.bind] at h
    | ok q =>
      rw [hq] at h
      cases hc : taskCost rates dflt td.roles with
      | error e => rw [hc] at h; simp [bind, Except.bind] at h
      | ok c =>
        rw [hc] at h
        cases hrest : processTasks rates dflt fresh (k + 1) rest with
        | error e => rw [hrest] at h; simp [bind, Except.bind] at h
        | ok lr =>
          rw [hrest] at h
          simp only [bind, Except.bind] at h
          rw [← Except.ok.inj h]
          simp [ih (k + 1) lr hrest, taskCost_ok_val rates dflt td.roles c hc]

/-- When every task carries an explicit id, the per-task loop never
consults the uuid supply or its counter. -/
theorem processTasks_id_irrel (rates : List (String × ℚ)) (dflt : ℚ) (f g : ℕ → String) :
    ∀ (tds : List TaskData), (∀ td ∈ tds, td.id.isSome = true) → ∀ k j,
      processTasks rates dflt f k tds = processTasks rates dflt g j tds := by
  intro tds
  induction tds with
  | nil => intro _ k j; rfl
  | cons td rest ih =>
    intro h k j
    obtain ⟨i, hi⟩ := Option.isSome_iff_exists.mp (h td (by simp))
    have hrec := ih (fun x hx => h x (by simp [hx])) (k + 1) (j + 1)
    simp only [processTasks, hi, Option.getD_some, hrec]

/-- A successful engine run decomposes into a successful per-task loop and
the aggregation. -/
theorem analyze_ok_elim (rates : List (String × ℚ)) (dflt : ℚ) (fresh : ℕ → String) (now : ℚ)
    (tds : List TaskData) (r : ProjectEstimate)
    (h : analyze_engine rates dflt fresh now tds = Except.ok r) :
    ∃ pairs, processTasks rates dflt fresh 0 tds = Except.ok pairs ∧
      r = assembleEstimate now pairs := by
  unfold analyze_engine at h
  cases hp : processTasks rates dflt fresh 0 tds with
  | error e => rw [hp] at h; simp [Except.map] at h
  | ok pairs =>
    rw [hp] at h
    simp only [Except.map] at h
    exact ⟨pairs, rfl, (Except.ok.inj h).symm⟩

/-- networkx topological sorting of the empty graph succeeds with the empty
order (so a recorded sorting failure implies a non-empty node set). -/
theorem topo_of_empty (G : Digraph) (h : G.nodes.isEmpty = true) :
    topological_sort G = some [] := by
  have hn : G.nodes = [] := by simpa [List.isEmpty_iff] using h
  simp [topological_sort, hn, topoLoop]

/-- `add_edge`-created endpoint nodes never change the edge list. -/
theorem ensureNode_edges (G : Digraph) (w : String) : (ensureNode G w).edges = G.edges := by
  unfold ensureNode
  split <;> rfl

/-- `add_edge` records the requested edge. -/
theorem add_edge_mem_self (G : Digraph) (u v : String) : (u, v) ∈ (add_edge G u v).edges := by
  unfold add_edge
  by_cases hc : ((ensureNode (ensureNode G u) v).edges.contains (u, v)) = true
  · simp only [hc, if_true]
    exact List.elem_iff.mp hc
  · simp only [hc, if_false]
    simp

/-- `add_edge` keeps every existing edge. -/
theorem add_edge_edges_sub (G : Digraph) (u v : String) (e : String × String)
    (h : e ∈ G.edges) : e ∈ (add_edge G u v).edges := by
  unfold add_edge
  by_cases hc : ((ensureNode (ensureNode G u) v).edges.contains (u, v)) = true
  · simp only [hc, if_true]
    rw [ensureNode_edges, ensureNode_edges]
    exact h
  · simp only [hc, if_false]
    rw [ensureNode_edges, ensureNode_edges]
    exact List.mem_append_left _ h

/-- The per-task dependency fold keeps every existing edge. -/
theorem depsFold_edges_sub (t : String) :
    ∀ (ds : List String) (G : Digraph) (e : String × String), e ∈ G.edges →
      e ∈ (ds.foldl (fun H dep => add_edge H dep t) G).edges := by
  intro ds
  induction ds with
  | nil => exact fun G e h => h
  | cons d rest ih =>
    intro G e h
    exact ih (add_edge G d t) e (add_edge_edges_sub G d t e h)

/-- The per-task dependency fold records every declared dependency edge. -/
theorem depsFold_edge_mem (t : String) :
    ∀ (ds : List String) (G : Digraph) (d : String), d ∈ ds →
      (d, t) ∈ (ds.foldl (fun H dep => add_edge H dep t) G).edges := by
  intro ds
  induction ds with
  | nil => intro G d h; cases h
  | cons d0 rest ih =>
    intro G d h
    rcases List.mem_cons.mp h with h0 | h1
    · subst h0
      exact depsFold_edges_sub t rest (add_edge G d t) (d, t) (add_edge_mem_self G d t)
    · exact ih (add_edge G d0 t) d h1

/-- The outer dependency fold keeps every existing edge. -/
theorem outerFold_edges_sub :
    ∀ (deps : List (String × List String)) (G : Digraph) (e : String × String), e ∈ G.edges →
      e ∈ (deps.foldl (fun G td => td.2.foldl (fun H dep => add_edge H dep td.1) G) G).edges := by
  intro deps
  induction deps with
  | nil => exact fun G e h => h
  | cons p rest ih =>
    intro G e h
    exact ih _ e (depsFold_edges_sub p.1 p.2 G e h)

/-- Every dependency declared anywhere in the dict ends up as an edge of
the built graph, whether or not it refers to an existing task. -/
theorem buildGraph_edge_of_dep :
    ∀ (deps : List (String × List String)) (G : Digraph) (t d : String) (ds : List String),
      (t, ds) ∈ deps → d ∈ ds →
      (d, t) ∈ (deps.foldl (fun G td => td.2.foldl (fun H dep => add_edge H dep td.1) G) G).edges := by
  intro deps
  induction deps with
  | nil => intro G t d ds h; cases h
  | cons p rest ih =>
    intro G t d ds hmem hd
    rcases List.mem_cons.mp hmem with h0 | h1
    · subst h0
      exact outerFold_edges_sub rest _ (d, t) (depsFold_edge_mem t ds G d hd)
    · exact ih _ t d ds h1 hd

/-- The spec's worked cost example: `10 × 400 + 5 × 1000 = 9000`. -/
theorem taskCost_exampleAC : taskCost exRates 1000 exRoles = Except.ok 9000 := by
  have hA : lookupRate exRates 1000 ("A") = 400 := by decide
  have hC : lookupRate exRates 1000 ("C") = 1000 := by decide
  have r1 : roleCost exRates 1000 { role := some ("A"), hours_most_likely := some (JVal.num 10) }
      = Except.ok 4000 := by
    simp [roleCost, hA]
    norm_num
  have r2 : roleCost exRates 1000 { role := some ("C"), hours_most_likely := some (JVal.num 5) }
      = Except.ok 5000 := by
    simp [roleCost, hC]
    norm_num
  simp only [taskCost, exRoles, List.foldlM_cons, List.foldlM_nil, r1, r2, Except.map, bind,
    Except.bind, pure, Except.pure]
  norm_num

/-- C8: on all non-negative inputs (inverted triples with `o > p` included)
the duration estimator returns exactly `(o + 4m + p)/6`; at the inverted
triple `(10, 0, 0)` the unclamped, unreordered result `5/3` even falls
below the optimistic input, so no reordering or clamping takes place. -/
theorem C8_pert_formula_exact :
    (∀ o m p : ℚ, 0 ≤ o → 0 ≤ m → 0 ≤ p →
      calculate_pert_estimate o m p = (o + 4 * m + p) / 6) ∧
    calculate_pert_estimate 10 0 0 = 5 / 3 ∧ (5 / 3 : ℚ) < 10 := by
  refine ⟨fun o m p _ _ _ => rfl, ?_, by norm_num⟩
  unfold calculate_pert_estimate
  norm_num

/-- Witness for C8 at the concrete non-negative triple `(1, 2, 3)`. -/
theorem C8_pert_formula_exact_witness :
    calculate_pert_estimate 1 2 3 = (1 + 4 * 2 + 3) / 6 :=
  C8_pert_formula_exact.1 1 2 3 (by norm_num) (by norm_num) (by norm_num)

/-- C10: a role allocation without an `hours_most_likely` key contributes
`40 × rate` for its (possibly defaulted) role name; a role allocation
without a `role` key is priced as the role name `Developer`, which is
unmapped in `DEFAULT_RATES` and hence charged at the default rate 1000. -/
theorem C10_role_allocation_defaults :
    (∀ r : Option String, roleCost DEFAULT_RATES 1000 { role := r, hours_most_likely := none }
      = Except.ok (40 * lookupRate DEFAULT_RATES 1000 (r.getD defaultRole))) ∧
    (∀ h : ℚ, roleCost DEFAULT_RATES 1000 { role := none, hours_most_likely := some (JVal.num h) }
      = Except.ok (h * 1000)) ∧
    lookupRate DEFAULT_RATES 1000 defaultRole = 1000 := by
  refine ⟨fun r => rfl, fun h => ?_, by decide⟩
  have hrate : lookupRate DEFAULT_RATES 1000 defaultRole = 1000 := by decide
  simp [roleCost, Option.getD, hrate]

/-- C1: the resolver maximizes hop count, not total node weight.  On the
diamond graph the hop-longest path happens to be `[T1, T2, T4]` with total
duration 7 (the claim's instance holds by coincidence), but on an acyclic
graph consisting of an isolated 100-day task `A` and a chain `B → C` of
1-day tasks the resolver returns the chain, whose total weight 2 is below
the true root-to-leaf maximum 100 attained by the path `[A]`. -/
theorem C1_resolver_maximizes_hops_not_weight :
    calculate_critical_path [(("T1"), 1), (("T2"), 5), (("T3"), 2), (("T4"), 1)]
        [(("T1"), []), (("T2"), [("T1")]), (("T3"), [("T1")]), (("T4"), [("T2"), ("T3")])]
      = [("T1"), ("T2"), ("T4")] ∧
    pathDuration [(("T1"), 1), (("T2"), 5), (("T3"), 2), (("T4"), 1)]
        [("T1"), ("T2"), ("T4")] = 7 ∧
    (topological_sort (buildGraph [(("A"), 100), (("B"), 1), (("C"), 1)]
        [(("A"), []), (("B"), []), (("C"), [("B")])])).isSome = true ∧
    calculate_critical_path [(("A"), 100), (("B"), 1), (("C"), 1)]
        [(("A"), []), (("B"), []), (("C"), [("B")])] = [("B"), ("C")] ∧
    pathDuration [(("A"), 100), (("B"), 1), (("C"), 1)] [("B"), ("C")] = 2 ∧
    pathDuration [(("A"), 100), (("B"), 1), (("C"), 1)] [("A")] = 100 ∧
    (2 : ℚ) < 100 := by
  refine ⟨by decide, ?_, by decide, by decide, ?_, ?_, by norm_num⟩
  all_goals simp [pathDuration]
  all_goals norm_num

/-- C6: with two independent tasks of expected durations 1 and 96 (a
non-empty acyclic graph), the hop-count tie-break returns the single-node
path `[T1]`, so `total_duration_days = 1` falls below the maximal per-task
expected duration 96. -/
theorem C6_duration_below_max_expected :
    (analyze_project (fun _ => ("u")) 0
        [ { id := some ("T1"), optimistic_days := some (JVal.num 1),
            most_likely_days := some (JVal.num 1), pessimistic_days := some (JVal.num 1),
            dependencies := [], roles := [] }
        , { id := some ("T2"), optimistic_days := some (JVal.num 96),
            most_likely_days := some (JVal.num 96), pessimistic_days := some (JVal.num 96),
            dependencies := [], roles := [] } ]).map
        (fun r => (r.critical_path, r.total_duration_days, r.tasks.map (fun t => t.expected_days)))
      = Except.ok ([("T1")], (1 : ℚ), [(1 : ℚ), 96]) ∧
    (topological_sort (buildGraph [(("T1"), 1), (("T2"), 96)]
        [(("T1"), []), (("T2"), [])])).isSome = true ∧
    (1 : ℚ) < 96 := by
  refine ⟨?_, by decide, by norm_num⟩
  have h1 : pertJ (JVal.num 1) (JVal.num 1) (JVal.num 1) = Except.ok (1, 1, 1, 1) := by
    simp [pertJ, calculate_pert_estimate]
    norm_num
  have h96 : pertJ (JVal.num 96) (JVal.num 96) (JVal.num 96) = Except.ok (96, 96, 96, 96) := by
    simp [pertJ, calculate_pert_estimate]
    norm_num
  have hp : processTasks DEFAULT_RATES 1000 (fun _ => ("u")) 0
      [ { id := some ("T1"), optimistic_days := some (JVal.num 1),
          most_likely_days := some (JVal.num 1), pessimistic_days := some (JVal.num 1),
          dependencies := [], roles := [] }
      , { id := some ("T2"), optimistic_days := some (JVal.num 96),
          most_likely_days := some (JVal.num 96), pessimistic_days := some (JVal.num 96),
          dependencies := [], roles := [] } ]
      = Except.ok
        [ ({ id := ("T1"), dependencies := [], roles := [], optimistic_days := 1,
             most_likely_days := 1, pessimistic_days := 1, expected_days := 1 }, 0)
        , ({ id := ("T2"), dependencies := [], roles := [], optimistic_days := 96,
             most_likely_days := 96, pessimistic_days := 96, expected_days := 96 }, 0) ] := by
    simp [processTasks, h1, h96, taskCost, pure, Except.pure, bind, Except.bind]
  have hcp : calculate_critical_path [(("T1"), (1 : ℚ)), (("T2"), 96)]
      [(("T1"), ([] : List String)), (("T2"), [])] = [("T1")] := by decide
  simp only [analyze_project, analyze_engine, hp, Except.map, assembleEstimate, engineDeps,
    List.foldl, List.map]
  simp +decide [updateAssoc, hcp]

/-- C2 counterexample: for the two-task list where `T2` declares the
dangling dependency `T99`, the built graph does contain the edge from the
unknown id `T99` into `T2` (networkx `add_edge` creates the missing node),
refuting the claim that the edge is silently dropped. -/
theorem C2_dangling_edge_present :
    (buildGraph [(("T1"), 1), (("T2"), 1)] [(("T1"), []), (("T2"), [("T99")])]).edges
      = [(("T99"), ("T2"))] ∧
    (buildGraph [(("T1"), 1), (("T2"), 1)] [(("T1"), []), (("T2"), [("T99")])]).nodes
      = [(("T1"), some 1), (("T2"), some 1), (("T99"), none)] := by
  exact ⟨by decide, by decide⟩

/-- C4 counterexample: a task whose `optimistic_days` field is present but
non-numeric makes the run abort with a `TypeError` (surfaced as the
endpoint's catch-all 500) instead of being replaced by the default 5. -/
theorem C4_nonnumeric_field_aborts :
    analyze_project (fun _ => ("u")) 0
        [ { id := some ("T1"), optimistic_days := some (JVal.str ("abc")),
            most_likely_days := none, pessimistic_days := none,
            dependencies := [], roles := [] } ]
      = Except.error typeError := rfl

/-- C2 (amended): a declared dependency on an id that matches no task is
not dropped — the graph builder adds the edge from the unknown id into the
declaring task (creating a node for the unknown id) — and the engine still
never raises on a dangling reference: any task list with only numeric or
absent arithmetic fields completes regardless of its dependency ids. -/
theorem C2_dangling_edge_added :
    (∀ (tasks : List (String × ℚ)) (deps : List (String × List String)) (t d : String)
        (ds : List String), (t, ds) ∈ deps → d ∈ ds →
        (d, t) ∈ (buildGraph tasks deps).edges) ∧
    (∀ (fresh : ℕ → String) (now : ℚ) (tds : List TaskData),
        (∀ td ∈ tds, numericTD td = true) →
        engineOk (analyze_project fresh now tds) = true) := by
  constructor
  · intro tasks deps t d ds hmem hd
    exact buildGraph_edge_of_dep deps _ t d ds hmem hd
  · intro fresh now tds h
    obtain ⟨l, hl, _⟩ := processTasks_total DEFAULT_RATES 1000 fresh tds h 0
    simp [analyze_project, analyze_engine, hl, except_map_ok, engineOk]

/-- Witness for C2 at the dangling reference `T2 → T99`: the edge
`(T99, T2)` is present and the engine completes. -/
theorem C2_dangling_edge_added_witness :
    (("T99"), ("T2")) ∈ (buildGraph [(("T1"), 1), (("T2"), 1)]
        [(("T1"), []), (("T2"), [("T99")])]).edges ∧
    engineOk (analyze_project (fun _ => ("u")) 0
      [ { id := some ("T1"), optimistic_days := none, most_likely_days := none,
          pessimistic_days := none, dependencies := [], roles := [] }
      , { id := some ("T2"), optimistic_days := none, most_likely_days := none,
          pessimistic_days := none, dependencies := [("T99")], roles := [] } ]) = true :=
  ⟨C2_dangling_edge_added.1 [(("T1"), 1), (("T2"), 1)] [(("T1"), []), (("T2"), [("T99")])]
      ("T2") ("T99") [("T99")] (by decide) (by decide),
   C2_dangling_edge_added.2 _ _ _ (by decide)⟩

/-- C4 (amended): the orchestrator substitutes the documented defaults
(optimistic=5, most_likely=10, pessimistic=15) only for *absent* duration
fields, and it completes on every task list whose present arithmetic fields
are numeric; a present non-numeric duration field, by contrast, raises a
`TypeError` that aborts the whole run (see the counterexample). -/
theorem C4_missing_fields_defaulted (rates : List (String × ℚ)) (dflt : ℚ)
    (fresh : ℕ → String) (now : ℚ) (tds : List TaskData)
    (h : ∀ td ∈ tds, numericTD td = true) :
    engineOk (analyze_engine rates dflt fresh now tds) = true ∧
    List.Forall₂ (fun td (te : TaskEstimate) =>
        (td.optimistic_days = none → te.optimistic_days = 5) ∧
        (td.most_likely_days = none → te.most_likely_days = 10) ∧
        (td.pessimistic_days = none → te.pessimistic_days = 15)) tds
      (resultTasks (analyze_engine rates dflt fresh now tds)) := by
  obtain ⟨l, hl, hfa⟩ := processTasks_total rates dflt fresh tds h 0
  constructor
  · simp [analyze_engine, hl, except_map_ok, engineOk]
  · simp only [analyze_engine, hl, except_map_ok, resultTasks, assembleEstimate]
    exact hfa

/-- Witness for C4 at a one-task list with all duration fields absent. -/
theorem C4_missing_fields_defaulted_witness :
    engineOk (analyze_engine DEFAULT_RATES 1000 (fun _ => ("u")) 0
      [ { id := some ("T1"), optimistic_days := none, most_likely_days := none,
          pessimistic_days := none, dependencies := [], roles := [] } ]) = true ∧
    List.Forall₂ (fun (td : TaskData) (te : TaskEstimate) =>
        (td.optimistic_days = none → te.optimistic_days = 5) ∧
        (td.most_likely_days = none → te.most_likely_days = 10) ∧
        (td.pessimistic_days = none → te.pessimistic_days = 15))
      [ { id := some ("T1"), optimistic_days := none, most_likely_days := none,
          pessimistic_days := none, dependencies := [], roles := [] } ]
      (resultTasks (analyze_engine DEFAULT_RATES 1000 (fun _ => ("u")) 0
        [ { id := some ("T1"), optimistic_days := none, most_likely_days := none,
            pessimistic_days := none, dependencies := [], roles := [] } ])) :=
  C4_missing_fields_defaulted DEFAULT_RATES 1000 (fun _ => ("u")) 0
    [ { id := some ("T1"), optimistic_days := none, most_likely_days := none,
        pessimistic_days := none, dependencies := [], roles := [] } ] (by decide)

/-- C5: whenever networkx cannot topologically order the dependency graph
of a completed run (the cycle criterion: `NetworkXUnfeasible`), the bare
`except` yields an empty critical path, and the orchestrator falls back to
summing the expected durations of *all* tasks. -/
theorem C5_cycle_empty_path_fallback (rates : List (String × ℚ)) (dflt : ℚ)
    (fresh : ℕ → String) (now : ℚ) (tds : List TaskData) (r : ProjectEstimate)
    (hok : analyze_engine rates dflt fresh now tds = Except.ok r)
    (hcyc : topological_sort (engineGraph r.tasks) = none) :
    r.critical_path = [] ∧
    r.total_duration_days = (r.tasks.map (fun t => t.expected_days)).sum := by
  obtain ⟨pairs, hp, hr⟩ := analyze_ok_elim rates dflt fresh now tds r hok
  subst hr
  have hcyc2 : topological_sort (engineGraph (pairs.map Prod.fst)) = none := hcyc
  have hG : dag_longest_path (engineGraph (pairs.map Prod.fst)) = none := by
    unfold dag_longest_path
    cases he : (engineGraph (pairs.map Prod.fst)).nodes.isEmpty with
    | true =>
      rw [topo_of_empty _ he] at hcyc2
      simp at hcyc2
    | false =>
      rw [if_neg (by simp), hcyc2]
  have hccp : calculate_critical_path
      ((pairs.map Prod.fst).map (fun t => (t.id, t.expected_days)))
      (engineDeps (pairs.map Prod.fst)) = [] := by
    unfold calculate_critical_path
    rw [show buildGraph ((pairs.map Prod.fst).map (fun t => (t.id, t.expected_days)))
        (engineDeps (pairs.map Prod.fst)) = engineGraph (pairs.map Prod.fst) from rfl, hG]
  rw [List.map_map] at hccp
  constructor
  · simp [assembleEstimate, hccp]
  · simp [assembleEstimate, hccp]

/-- Witness for C5 at the mutual cycle `T1 ⇄ T2`: empty critical path and
the serialized total `10 + 10 = 20`. -/
theorem C5_cycle_empty_path_fallback_witness :
    cycEstimate.critical_path = [] ∧
    cycEstimate.total_duration_days = (cycEstimate.tasks.map (fun t => t.expected_days)).sum := by
  have hpert : pertJ (JVal.num 5) (JVal.num 10) (JVal.num 15) = Except.ok (5, 10, 15, 10) := by
    simp [pertJ, calculate_pert_estimate]
    norm_num
  have hp : processTasks DEFAULT_RATES 1000 (fun _ => ("u")) 0 cycTDs
      = Except.ok [(cycTaskA, 0), (cycTaskB, 0)] := by
    simp [processTasks, cycTDs, cycTaskA, cycTaskB, hpert, taskCost, pure, Except.pure,
      bind, Except.bind]
  have hcp : calculate_critical_path [(("T1"), (10 : ℚ)), (("T2"), 10)]
      [(("T1"), [("T2")]), (("T2"), [("T1")])] = [] := by decide
  have hok : analyze_engine DEFAULT_RATES 1000 (fun _ => ("u")) 0 cycTDs
      = Except.ok cycEstimate := by
    simp only [analyze_engine, hp, except_map_ok, assembleEstimate, engineDeps, List.foldl,
      List.map, cycTaskA, cycTaskB]
    simp +decide [updateAssoc, hcp, cycEstimate, cycTaskA, cycTaskB]
    norm_num
  exact C5_cycle_empty_path_fallback DEFAULT_RATES 1000 (fun _ => ("u")) 0 cycTDs cycEstimate
    hok (by decide)

/-- C7: on every completed run the reported total cost is the sum over
tasks of the per-task cost, each task's cost being the sum over its role
allocations of most-likely hours (default 40) times the hourly rate looked
up by exact role-name match (default rate for unmapped names); the spec's
worked example with rate table `A ↦ 400, B ↦ 800` and default 1000 prices
the allocations `(A, 10h), (C, 5h)` at `10×400 + 5×1000 = 9000`. -/
theorem C7_cost_rollup :
    (∀ (rates : List (String × ℚ)) (dflt : ℚ) (fresh : ℕ → String) (now : ℚ)
        (tds : List TaskData) (r : ProjectEstimate),
        analyze_engine rates dflt fresh now tds = Except.ok r →
        r.total_cost = (tds.map (fun td => taskCostVal rates dflt td.roles)).sum) ∧
    taskCost exRates 1000 exRoles = Except.ok 9000 := by
  constructor
  · intro rates dflt fresh now tds r h
    obtain ⟨pairs, hp, hr⟩ := analyze_ok_elim rates dflt fresh now tds r h
    subst hr
    have hc := processTasks_costs rates dflt fresh tds 0 pairs hp
    simp [assembleEstimate, hc]
  · exact taskCost_exampleAC

/-- Witness for C7: the engine run on the example task list reports total
cost 9000, the spec-side roll-up of the worked example. -/
theorem C7_cost_rollup_witness :
    exEstimate.total_cost = (exTds.map (fun td => taskCostVal exRates 1000 td.roles)).sum := by
  have hpert : pertJ (JVal.num 5) (JVal.num 10) (JVal.num 15) = Except.ok (5, 10, 15, 10) := by
    simp [pertJ, calculate_pert_estimate]
    norm_num
  have hp : processTasks exRates 1000 (fun _ => ("u")) 0 exTds
      = Except.ok [({ id := ("T1"), dependencies := [], roles := exRoles, optimistic_days := 5,
                      most_likely_days := 10, pessimistic_days := 15, expected_days := 10 },
                    9000)] := by
    simp [processTasks, exTds, hpert, taskCost_exampleAC, bind, Except.bind]
  have hcp : calculate_critical_path [(("T1"), (10 : ℚ))] [(("T1"), [])] = [("T1")] := by decide
  have hok : analyze_engine exRates 1000 (fun _ => ("u")) 0 exTds = Except.ok exEstimate := by
    simp only [analyze_engine, hp, except_map_ok, assembleEstimate, engineDeps, List.foldl,
      List.map]
    simp +decide [updateAssoc, hcp, exEstimate]
  exact C7_cost_rollup.1 exRates 1000 (fun _ => ("u")) 0 exTds exEstimate hok

/-- C9: with the invocation time held fixed, two runs of the orchestrator
on the identical task list and rate table are equal whenever every task
carries an explicit id (so that no ephemeral uuid enters the estimate): the
uuid supply is the only nondeterministic input and is never consulted. -/
theorem C9_fixed_time_idempotent (rates : List (String × ℚ)) (dflt : ℚ) (now : ℚ)
    (tds : List TaskData) (f g : ℕ → String)
    (h : ∀ td ∈ tds, td.id.isSome = true) :
    analyze_engine rates dflt f now tds = analyze_engine rates dflt g now tds := by
  unfold analyze_engine
  rw [processTasks_id_irrel rates dflt f g tds h 0 0]

/-- Witness for C9 with two distinct uuid supplies. -/
theorem C9_fixed_time_idempotent_witness :
    analyze_engine DEFAULT_RATES 1000 (fun _ => ("a")) 0
        [ { id := some ("T1"), optimistic_days := none, most_likely_days := none,
            pessimistic_days := none, dependencies := [], roles := [] } ]
      = analyze_engine DEFAULT_RATES 1000 (fun _ => ("b")) 0
        [ { id := some ("T1"), optimistic_days := none, most_likely_days := none,
            pessimistic_days := none, dependencies := [], roles := [] } ] :=
  C9_fixed_time_idempotent DEFAULT_RATES 1000 0 _ (fun _ => ("a")) (fun _ => ("b")) (by decide)

/-- Updating the duration attribute of a node keeps the key list. -/
theorem map_fst_set_duration (l : List (String × Option ℚ)) (v : String) (d : ℚ) :
    (l.map (fun nd => if nd.1 == v then (nd.1, some d) else nd)).map Prod.fst
      = l.map Prod.fst := by
  induction l with
  | nil => rfl
  | cons q t ih =>
    have hq : ((if (q.1 == v) = true then (q.1, some d) else q) : String × Option ℚ).1 = q.1 := by
      split <;> rfl
    simp only [List.map_cons, hq, ih]

/-- Decrementing a residual in-degree keeps the key list. -/
theorem map_fst_decrement (l : List (String × ℕ)) (c : String) :
    (l.map (fun q => if q.1 == c then (q.1, q.2 - 1) else q)).map Prod.fst
      = l.map Prod.fst := by
  induction l with
  | nil => rfl
  | cons q t ih =>
    have hq : ((if (q.1 == c) = true then (q.1, q.2 - 1) else q) : String × ℕ).1 = q.1 := by
      split <;> rfl
    simp only [List.map_cons, hq, ih]

/-- Filtering an association list by key commutes with taking keys. -/
theorem map_fst_filter_bne (l : List (String × ℕ)) (c : String) :
    (l.filter (fun q => !(q.1 == c))).map Prod.fst
      = (l.map Prod.fst).filter (fun x => !(x == c)) := by
  induction l with
  | nil => rfl
  | cons q t ih =>
    by_cases h : (q.1 == c) = true <;> simp [List.filter_cons, h, ih]

/-- A node id of `ensureNode` is an old id or the ensured one. -/
theorem ensureNode_nodeIds_src (G : Digraph) (v x : String)
    (h : x ∈ nodeIds (ensureNode G v)) : x ∈ nodeIds G ∨ x = v := by
  unfold ensureNode at h
  split at h
  · exact Or.inl h
  · simp only [nodeIds, List.map_append] at h
    rcases List.mem_append.mp h with h1 | h2
    · exact Or.inl h1
    · simp at h2
      exact Or.inr h2

/-- `ensureNode` keeps node ids duplicate-free. -/
theorem ensureNode_nodup (G : Digraph) (v : String) (h : (nodeIds G).Nodup) :
    (nodeIds (ensureNode G v)).Nodup := by
  unfold ensureNode
  split
  · exact h
  · rename_i hc
    have hv : v ∉ nodeIds G := by
      intro hm
      exact hc (by simpa [nodeIds] using List.elem_eq_true_of_mem hm)
    simp [nodeIds, List.nodup_append]
    exact ⟨by simpa [nodeIds] using h, by simpa [nodeIds] using hv⟩

/-- A node id of `add_node` is an old id or the added one. -/
theorem add_node_nodeIds_src (G : Digraph) (v : String) (d : ℚ) (x : String)
    (h : x ∈ nodeIds (add_node G v d)) : x ∈ nodeIds G ∨ x = v := by
  unfold add_node at h
  split at h
  · simp only [nodeIds] at h
    rw [map_fst_set_duration] at h
    exact Or.inl h
  · simp only [nodeIds, List.map_append] at h
    rcases List.mem_append.mp h with h1 | h2
    · exact Or.inl h1
    · simp at h2
      exact Or.inr h2

/-- `add_node` keeps node ids duplicate-free. -/
theorem add_node_nodup (G : Digraph) (v : String) (d : ℚ) (h : (nodeIds G).Nodup) :
    (nodeIds (add_node G v d)).Nodup := by
  unfold add_node
  split
  · simpa only [nodeIds, map_fst_set_duration] using h
  · rename_i hc
    have hv : v ∉ nodeIds G := by
      intro hm
      exact hc (by simpa [nodeIds] using List.elem_eq_true_of_mem hm)
    simp [nodeIds, List.nodup_append]
    exact ⟨by simpa [nodeIds] using h, by simpa [nodeIds] using hv⟩

/-- The node set of `add_edge` is that of the two `ensureNode` calls. -/
theorem add_edge_nodes (G : Digraph) (u v : String) :
    (add_edge G u v).nodes = (ensureNode (ensureNode G u) v).nodes := by
  unfold add_edge
  by_cases hc : ((ensureNode (ensureNode G u) v).edges.contains (u, v)) = true
  · simp only [hc, if_true]
  · simp only [hc]
    rfl

/-- A node id of `add_edge` is an old id or one of the endpoints. -/
theorem add_edge_nodeIds_src (G : Digraph) (u v x : String)
    (h : x ∈ nodeIds (add_edge G u v)) : x ∈ nodeIds G ∨ x = u ∨ x = v := by
  have h2 : x ∈ nodeIds (ensureNode (ensureNode G u) v) := by
    simpa [nodeIds, add_edge_nodes] using h
  rcases ensureNode_nodeIds_src _ v x h2 with h3 | h3
  · rcases ensureNode_nodeIds_src G u x h3 with h4 | h4
    · exact Or.inl h4
    · exact Or.inr (Or.inl h4)
  · exact Or.inr (Or.inr h3)

/-- `add_edge` keeps node ids duplicate-free. -/
theorem add_edge_nodup (G : Digraph) (u v : String) (h : (nodeIds G).Nodup) :
    (nodeIds (add_edge G u v)).Nodup := by
  have h2 : (nodeIds (ensureNode (ensureNode G u) v)).Nodup :=
    ensureNode_nodup _ v (ensureNode_nodup G u h)
  simpa [nodeIds, add_edge_nodes] using h2

/-- Node ids after the `add_node` fold come from the start graph or the
task dicts. -/
theorem foldl_add_node_src :
    ∀ (ts : List (String × ℚ)) (G : Digraph) (x : String),
      x ∈ nodeIds (ts.foldl (fun G t => add_node G t.1 t.2) G) →
      x ∈ nodeIds G ∨ x ∈ ts.map Prod.fst := by
  intro ts
  induction ts with
  | nil => exact fun G x h => Or.inl h
  | cons t rest ih =>
    intro G x h
    rcases ih (add_node G t.1 t.2) x h with h1 | h1
    · rcases add_node_nodeIds_src G t.1 t.2 x h1 with h2 | h2
      · exact Or.inl h2
      · exact Or.inr (by simp [h2])
    · exact Or.inr (by simp [h1])

/-- The `add_node` fold keeps node ids duplicate-free. -/
theorem foldl_add_node_nodup :
    ∀ (ts : List (String × ℚ)) (G : Digraph), (nodeIds G).Nodup →
      (nodeIds (ts.foldl (fun G t => add_node G t.1 t.2) G)).Nodup := by
  intro ts
  induction ts with
  | nil => exact fun G h => h
  | cons t rest ih => exact fun G h => ih _ (add_node_nodup G t.1 t.2 h)

/-- Node ids after one task's dependency fold come from the start graph,
the dependency list, or the task id. -/
theorem foldl_add_edge_src (t : String) :
    ∀ (ds : List String) (G : Digraph) (x : String),
      x ∈ nodeIds (ds.foldl (fun H dep => add_edge H dep t) G) →
      x ∈ nodeIds G ∨ x ∈ ds ∨ x = t := by
  intro ds
  induction ds with
  | nil => exact fun G x h => Or.inl h
  | cons d rest ih =>
    intro G x h
    rcases ih (add_edge G d t) x h with h1 | h1
    · rcases add_edge_nodeIds_src G d t x h1 with h2 | h2 | h2
      · exact Or.inl h2
      · exact Or.inr (Or.inl (by simp [h2]))
      · exact Or.inr (Or.inr h2)
    · rcases h1 with h2 | h2
      · exact Or.inr (Or.inl (by simp [h2]))
      · exact Or.inr (Or.inr h2)

/-- One task's dependency fold keeps node ids duplicate-free. -/
theorem foldl_add_edge_nodup (t : String) :
    ∀ (ds : List String) (G : Digraph), (nodeIds G).Nodup →
      (nodeIds (ds.foldl (fun H dep => add_edge H dep t) G)).Nodup := by
  intro ds
  induction ds with
  | nil => exact fun G h => h
  | cons d rest ih => exact fun G h => ih _ (add_edge_nodup G d t h)

/-- Node ids after the whole dependency fold come from the start graph or
some dict entry (its key or one of its values). -/
theorem foldl_deps_src :
    ∀ (deps : List (String × List String)) (G : Digraph) (x : String),
      x ∈ nodeIds (deps.foldl (fun G td => td.2.foldl (fun H dep => add_edge H dep td.1) G) G) →
      x ∈ nodeIds G ∨ ∃ p ∈ deps, x = p.1 ∨ x ∈ p.2 := by
  intro deps
  induction deps with
  | nil => exact fun G x h => Or.inl h
  | cons p rest ih =>
    intro G x h
    rcases ih _ x h with h1 | h1
    · rcases foldl_add_edge_src p.1 p.2 G x h1 with h2 | h2 | h2
      · exact Or.inl h2
      · exact Or.inr ⟨p, by simp, Or.inr h2⟩
      · exact Or.inr ⟨p, by simp, Or.inl h2⟩
    · obtain ⟨q, hq, hxq⟩ := h1
      exact Or.inr ⟨q, by simp [hq], hxq⟩

/-- The whole dependency fold keeps node ids duplicate-free. -/
theorem foldl_deps_nodup :
    ∀ (deps : List (String × List String)) (G : Digraph), (nodeIds G).Nodup →
      (nodeIds (deps.foldl (fun G td =>
        td.2.foldl (fun H dep => add_edge H dep td.1) G) G)).Nodup := by
  intro deps
  induction deps with
  | nil => exact fun G h => h
  | cons p rest ih => exact fun G h => ih _ (foldl_add_edge_nodup p.1 p.2 G h)

/-- The built graph has duplicate-free node ids. -/
theorem buildGraph_nodup (tasks : List (String × ℚ)) (deps : List (String × List String)) :
    (nodeIds (buildGraph tasks deps)).Nodup := by
  unfold buildGraph
  exact foldl_deps_nodup deps _ (foldl_add_node_nodup tasks { nodes := [], edges := [] }
    (by simp [nodeIds]))

/-- Every node id of the built graph is a task id, a dict key, or a
declared dependency id. -/
theorem buildGraph_nodeIds_src (tasks : List (String × ℚ))
    (deps : List (String × List String)) (x : String)
    (h : x ∈ nodeIds (buildGraph tasks deps)) :
    x ∈ tasks.map Prod.fst ∨ ∃ p ∈ deps, x = p.1 ∨ x ∈ p.2 := by
  unfold buildGraph at h
  rcases foldl_deps_src deps _ x h with h1 | h1
  · rcases foldl_add_node_src tasks _ x h1 with h2 | h2
    · simp [nodeIds] at h2
    · exact Or.inl h2
  · exact Or.inr h1

/-- One decrement step of the Kahn loop permutes the combined list of the
next generation and the residual map keys (a node moving from the map to
the generation is the only change). -/
theorem stepChild_perm (acc : List (String × ℕ) × List String) (c : String)
    (h : (acc.2 ++ acc.1.map Prod.fst).Nodup) :
    List.Perm ((stepChild acc c).2 ++ (stepChild acc c).1.map Prod.fst)
      (acc.2 ++ acc.1.map Prod.fst) := by
  unfold stepChild
  cases hf : acc.1.find? (fun p => p.1 == c) with
  | none => exact List.Perm.refl _
  | some p =>
    have hpm : p ∈ acc.1 := List.mem_of_find?_eq_some hf
    have hpc : p.1 = c := by
      have h2 := List.find?_some hf
      simpa using h2
    have hcK : c ∈ acc.1.map Prod.fst := hpc ▸ List.mem_map_of_mem Prod.fst hpm
    have hK : (acc.1.map Prod.fst).Nodup :=
      (List.sublist_append_right acc.2 _).nodup h
    by_cases h1 : p.2 = 1
    · simp only [h1, if_true]
      rw [map_fst_filter_bne]
      have herase : (acc.1.map Prod.fst).filter (fun x => !(x == c))
          = (acc.1.map Prod.fst).erase c := by
        rw [List.Nodup.erase_eq_filter hK]
        rfl
      rw [herase, List.append_assoc]
      exact List.Perm.append_left acc.2
        (by simpa using (List.perm_cons_erase hcK).symm)
    · simp only [h1, if_false]
      rw [map_fst_decrement]

/-- Folding decrement steps over any child list permutes the combined
list. -/
theorem foldl_stepChild_perm :
    ∀ (cs : List String) (acc : List (String × ℕ) × List String),
      (acc.2 ++ acc.1.map Prod.fst).Nodup →
      List.Perm ((cs.foldl stepChild acc).2 ++ (cs.foldl stepChild acc).1.map Prod.fst)
        (acc.2 ++ acc.1.map Prod.fst) := by
  intro cs
  induction cs with
  | nil => exact fun acc _ => List.Perm.refl _
  | cons c rest ih =>
    intro acc h
    have h1 := stepChild_perm acc c h
    have h2 : ((stepChild acc c).2 ++ (stepChild acc c).1.map Prod.fst).Nodup :=
      h1.nodup_iff.mpr h
    exact (ih (stepChild acc c) h2).trans h1

/-- Processing a whole generation permutes the combined list. -/
theorem foldl_stepNode_perm (G : Digraph) :
    ∀ (ns : List String) (acc : List (String × ℕ) × List String),
      (acc.2 ++ acc.1.map Prod.fst).Nodup →
      List.Perm ((ns.foldl (stepNode G) acc).2 ++ (ns.foldl (stepNode G) acc).1.map Prod.fst)
        (acc.2 ++ acc.1.map Prod.fst) := by
  intro ns
  induction ns with
  | nil => exact fun acc _ => List.Perm.refl _
  | cons n rest ih =>
    intro acc h
    have h1 : List.Perm ((stepNode G acc n).2 ++ (stepNode G acc n).1.map Prod.fst)
        (acc.2 ++ acc.1.map Prod.fst) := foldl_stepChild_perm (succs G n) acc h
    have h2 := h1.nodup_iff.mpr h
    exact (ih (stepNode G acc n) h2).trans h1

/-- The fuelled Kahn loop only ever emits nodes of the initial combined
list, each at most once. -/
theorem topoLoop_nodup_mem (G : Digraph) :
    ∀ (fuel : ℕ) (m : List (String × ℕ)) (zs accum out L : List String),
      List.Perm (accum ++ zs ++ m.map Prod.fst) L → L.Nodup →
      topoLoop G fuel m zs accum = some out →
      out.Nodup ∧ ∀ x ∈ out, x ∈ L := by
  intro fuel
  induction fuel with
  | zero =>
    intro m zs accum out L _ _ h
    cases h
  | succ n ih =>
    intro m zs accum out L hperm hnd h
    cases zs with
    | nil =>
      simp only [topoLoop] at h
      by_cases hm : m.isEmpty = true
      · rw [if_pos hm] at h
        have hmnil : m = [] := by simpa [List.isEmpty_iff] using hm
        have hout : accum = out := by simpa using h
        subst hout
        have hperm2 : List.Perm accum L := by simpa [hmnil] using hperm
        exact ⟨hperm2.nodup_iff.mpr hnd, fun x hx => hperm2.mem_iff.mp hx⟩
      · rw [if_neg hm] at h
        cases h
    | cons z zst =>
      simp only [topoLoop] at h
      have hwn : ((accum ++ z :: zst) ++ m.map Prod.fst).Nodup := by
        have := hperm.nodup_iff.mpr hnd
        simpa [List.append_assoc] using this
      have hkn : (m.map Prod.fst).Nodup :=
        (List.sublist_append_right (accum ++ z :: zst) _).nodup hwn
      have hstep := foldl_stepNode_perm G (z :: zst) (m, []) (by simpa using hkn)
      refine ih ((z :: zst).foldl (stepNode G) (m, [])).1
        ((z :: zst).foldl (stepNode G) (m, [])).2 (accum ++ z :: zst) out L ?_ hnd h
      have p1 : List.Perm
          ((accum ++ z :: zst) ++ (((z :: zst).foldl (stepNode G) (m, [])).2
            ++ ((z :: zst).foldl (stepNode G) (m, [])).1.map Prod.fst))
          ((accum ++ z :: zst) ++ m.map Prod.fst) :=
        List.Perm.append_left _ (by simpa using hstep)
      have p2 : List.Perm ((accum ++ z :: zst) ++ m.map Prod.fst) L := by
        simpa [List.append_assoc] using hperm
      have hassoc : (accum ++ z :: zst) ++ (((z :: zst).foldl (stepNode G) (m, [])).2
            ++ ((z :: zst).foldl (stepNode G) (m, [])).1.map Prod.fst)
          = (accum ++ z :: zst) ++ ((z :: zst).foldl (stepNode G) (m, [])).2
            ++ ((z :: zst).foldl (stepNode G) (m, [])).1.map Prod.fst :=
        (List.append_assoc _ _ _).symm
      rw [← hassoc]
      exact p1.trans p2

/-- A successful networkx topological sort lists each node id at most once
and only node ids of the graph. -/
theorem topological_sort_nodup_mem (G : Digraph) (hG : (nodeIds G).Nodup)
    (l : List String) (h : topological_sort G = some l) :
    l.Nodup ∧ ∀ x ∈ l, x ∈ nodeIds G := by
  unfold topological_sort at h
  have hsplit : List.Perm
      (((G.nodes.map (fun nd => (nd.1, indeg G nd.1))).filter
          (fun p => p.2 == 0)).map Prod.fst
        ++ ((G.nodes.map (fun nd => (nd.1, indeg G nd.1))).filter
          (fun p => p.2 != 0)).map Prod.fst) (nodeIds G) := by
    have hpart := List.filter_append_perm (fun p : String × ℕ => p.2 == 0)
      (G.nodes.map (fun nd => (nd.1, indeg G nd.1)))
    have hmap := hpart.map Prod.fst
    rw [List.map_append] at hmap
    have hkeys : (G.nodes.map (fun nd => (nd.1, indeg G nd.1))).map Prod.fst = nodeIds G := by
      unfold nodeIds
      rw [List.map_map]
      rfl
    rw [hkeys] at hmap
    exact hmap
  exact topoLoop_nodup_mem G (G.nodes.length + 1) _ _ [] l (nodeIds G)
    (by simpa using hsplit) hG h

/-- A Python `max` comparison step returns the candidate or the running
best. -/
theorem maxStep_cases (acc : Option (ℕ × String)) (x : ℕ × String) :
    maxStep acc x = some x ∨ maxStep acc x = acc := by
  cases acc with
  | none => exact Or.inl rfl
  | some b =>
    by_cases hb : b.1 < x.1
    · left
      show (if b.1 < x.1 then some x else some b) = some x
      rw [if_pos hb]
    · right
      show (if b.1 < x.1 then some x else some b) = some b
      rw [if_neg hb]

/-- What the `max` fold returns was in the list or was the seed. -/
theorem foldl_maxStep_mem :
    ∀ (l : List (ℕ × String)) (acc : Option (ℕ × String)) (x : ℕ × String),
      l.foldl maxStep acc = some x → x ∈ l ∨ acc = some x := by
  intro l
  induction l with
  | nil => exact fun acc x h => Or.inr h
  | cons b t ih =>
    intro acc x h
    rcases ih (maxStep acc b) x h with h1 | h1
    · exact Or.inl (List.mem_cons_of_mem b h1)
    · rcases maxStep_cases acc b with h2 | h2
      · rw [h2] at h1
        have hbx : b = x := Option.some.inj h1
        exact Or.inl (hbx ▸ List.mem_cons_self b t)
      · exact Or.inr (h2 ▸ h1)

/-- Python `max` returns an element of its list. -/
theorem maxFirst_mem (l : List (ℕ × String)) (x : ℕ × String)
    (h : maxFirst l = some x) : x ∈ l := by
  rcases foldl_maxStep_mem l none x h with h1 | h1
  · exact h1
  · cases h1

/-- Every relaxation entry is a root self-pointer or points one hop back to
an existing table entry. -/
theorem distEntry_spec (G : Digraph) (dist : List (String × ℕ × String)) (v : String) :
    distEntry G dist v = (0, v) ∨
    ∃ u m w, (u, m, w) ∈ dist ∧ distEntry G dist v = (m + 1, u) := by
  unfold distEntry
  cases hm : maxFirst ((preds G v).filterMap (fun u =>
      (dist.find? (fun p => p.1 == u)).map (fun p => (p.2.1 + 1, u)))) with
  | none => exact Or.inl rfl
  | some x =>
    have hx := maxFirst_mem _ x hm
    obtain ⟨u, _, hmap⟩ := List.mem_filterMap.mp hx
    cases hfind : dist.find? (fun p => p.1 == u) with
    | none =>
      rw [hfind] at hmap
      cases hmap
    | some p =>
      rw [hfind] at hmap
      have hxval : x = (p.2.1 + 1, u) := by simpa using hmap.symm
      have hp : p ∈ dist := List.mem_of_find?_eq_some hfind
      have hpu : p.1 = u := by
        have h2 := List.find?_some hfind
        simpa using h2
      refine Or.inr ⟨u, p.2.1, p.2.2, ?_, ?_⟩
      · rw [← hpu]
        simpa using hp
      · simp [hxval]

/-- The keys of the relaxation fold are the seed keys followed by the
visited order. -/
theorem distAux_keys (G : Digraph) :
    ∀ (topo : List String) (init : List (String × ℕ × String)),
      ((topo.foldl (fun dist v => dist ++ [(v, distEntry G dist v)]) init).map Prod.fst)
        = init.map Prod.fst ++ topo := by
  intro topo
  induction topo with
  | nil => exact fun init => by simp
  | cons v rest ih =>
    intro init
    rw [List.foldl_cons, ih]
    simp

/-- Appending a compatible entry preserves the relaxation invariant. -/
theorem distInv_append (dist : List (String × ℕ × String)) (v : String) (e : ℕ × String)
    (h : distInv dist)
    (he : e = (0, v) ∨ ∃ u m w, (u, m, w) ∈ dist ∧ e = (m + 1, u)) :
    distInv (dist ++ [(v, e)]) := by
  intro a n u hmem
  rcases List.mem_append.mp hmem with hold | hnew
  · rcases h a n u hold with h1 | ⟨h2, w, hw⟩
    · exact Or.inl h1
    · exact Or.inr ⟨h2, w, List.mem_append_left _ hw⟩
  · have hav : a = v ∧ (n, u) = e := by simpa using hnew
    rcases he with he1 | ⟨u2, m, w, hw, he2⟩
    · rw [he1] at hav
      have hn : n = 0 := congrArg Prod.fst hav.2
      have hu : u = v := congrArg Prod.snd hav.2
      exact Or.inl ⟨by rw [hu, ← hav.1], hn⟩
    · rw [he2] at hav
      have hn : n = m + 1 := congrArg Prod.fst hav.2
      have hu : u = u2 := congrArg Prod.snd hav.2
      refine Or.inr ⟨by omega, w, List.mem_append_left _ ?_⟩
      rw [hu, hn]
      simpa using hw

/-- The relaxation fold preserves the invariant. -/
theorem distAux_inv (G : Digraph) :
    ∀ (topo : List String) (init : List (String × ℕ × String)), distInv init →
      distInv (topo.foldl (fun dist v => dist ++ [(v, distEntry G dist v)]) init) := by
  intro topo
  induction topo with
  | nil => exact fun init h => h
  | cons v rest ih =>
    intro init h
    rw [List.foldl_cons]
    exact ih _ (distInv_append init v _ h (distEntry_spec G init v))

/-- The keys of the relaxation table are exactly the topological order. -/
theorem distPass_keys (G : Digraph) (topo : List String) :
    (distPass G topo).map Prod.fst = topo := by
  simpa using distAux_keys G topo []

/-- The relaxation table satisfies the structural invariant. -/
theorem distPass_inv (G : Digraph) (topo : List String) : distInv (distPass G topo) := by
  refine distAux_inv G topo [] ?_
  intro a n u h
  cases h

/-- With duplicate-free keys, `find?` on an association list returns the
member entry. -/
theorem find?_key_of_mem {β : Type} :
    ∀ (l : List (String × β)), (l.map Prod.fst).Nodup →
      ∀ (a : String) (b : β), (a, b) ∈ l → l.find? (fun p => p.1 == a) = some (a, b) := by
  intro l
  induction l with
  | nil => intro _ a b h; cases h
  | cons p t ih =>
    intro hnd a b h
    have hnd2 : (p.1 :: t.map Prod.fst).Nodup := by simpa using hnd
    rcases List.mem_cons.mp h with h1 | h1
    · subst h1
      simp [List.find?]
    · have hat : a ∈ t.map Prod.fst := by
        have h2 : (a, b).1 ∈ t.map Prod.fst := List.mem_map_of_mem Prod.fst h1
        simpa using h2
      have hpa : p.1 ≠ a := by
        intro he
        exact (List.nodup_cons.mp hnd2).1 (he ▸ hat)
      have hbeq : (p.1 == a) = false := by simpa using hpa
      rw [List.find?]
      rw [hbeq]
      exact ih hnd2.of_cons a b h1

/-- The predecessor chain reconstructed by `buildPath` stays inside the
table keys, never repeats a node, and only descends in stored length. -/
theorem buildPath_nodup_mem (dist : List (String × ℕ × String))
    (hnd : (dist.map Prod.fst).Nodup) (hinv : distInv dist) :
    ∀ (fuel : ℕ) (v : String) (b : ℕ × String), (v, b) ∈ dist →
      (buildPath dist fuel v).Nodup ∧
      ∀ x ∈ buildPath dist fuel v, (∃ c, (x, c) ∈ dist) ∧ dlen dist x ≤ dlen dist v := by
  intro fuel
  induction fuel with
  | zero =>
    intro v b _
    simp [buildPath]
  | succ n ih =>
    intro v b hb
    have hfind : dist.find? (fun p => p.1 == v) = some (v, b) :=
      find?_key_of_mem dist hnd v b hb
    have hdv : dlen dist v = b.1 := by simp [dlen, hfind]
    by_cases hbv : b.2 = v
    · have : buildPath dist (n + 1) v = [v] := by
        simp [buildPath, hfind, hbv]
      rw [this]
      refine ⟨by simp, ?_⟩
      intro x hx
      have hxv : x = v := by simpa using hx
      subst hxv
      exact ⟨⟨b, hb⟩, le_refl _⟩
    · have hpath : buildPath dist (n + 1) v = buildPath dist n b.2 ++ [v] := by
        have hf : (b.2 == v) = false := by simpa using hbv
        simp [buildPath, hfind, hf]
      rcases hinv v b.1 b.2 (by simpa using hb) with ⟨h1, _⟩ | ⟨hge, w, hw⟩
      · exact absurd h1 hbv
      · have hdu : dlen dist b.2 = b.1 - 1 := by
          simp [dlen, find?_key_of_mem dist hnd b.2 (b.1 - 1, w) hw]
        have hlt : dlen dist b.2 < dlen dist v := by
          rw [hdu, hdv]
          omega
        obtain ⟨htn, htm⟩ := ih b.2 (b.1 - 1, w) hw
        rw [hpath]
        constructor
        · have hvnot : v ∉ buildPath dist n b.2 := by
            intro hv
            have := (htm v hv).2
            omega
          simp [List.nodup_append, htn, hvnot]
        · intro x hx
          rcases List.mem_append.mp hx with h2 | h2
          · exact ⟨(htm x h2).1, le_trans (htm x h2).2 (le_of_lt hlt)⟩
          · have hxv : x = v := by simpa using h2
            subst hxv
            exact ⟨⟨b, hb⟩, le_refl _⟩

/-- What the `max`-over-keys fold returns was in the table or the seed. -/
theorem foldl_argStep_mem :
    ∀ (dist : List (String × ℕ × String)) (acc : Option (String × ℕ × String))
      (p : String × ℕ × String),
      dist.foldl argStep acc = some p → p ∈ dist ∨ acc = some p := by
  intro dist
  induction dist with
  | nil => exact fun acc p h => Or.inr h
  | cons q t ih =>
    intro acc p h
    rcases ih (argStep acc q) p h with h1 | h1
    · exact Or.inl (List.mem_cons_of_mem q h1)
    · have h2 : argStep acc q = some q ∨ argStep acc q = acc := by
        cases acc with
        | none => exact Or.inl rfl
        | some b =>
          by_cases hb : b.2.1 < q.2.1
          · left
            show (if b.2.1 < q.2.1 then some q else some b) = some q
            rw [if_pos hb]
          · right
            show (if b.2.1 < q.2.1 then some q else some b) = some b
            rw [if_neg hb]
      rcases h2 with h3 | h3
      · rw [h3] at h1
        have hqp : q = p := Option.some.inj h1
        exact Or.inl (hqp ▸ List.mem_cons_self q t)
      · exact Or.inr (h3 ▸ h1)

/-- Python `max` over the relaxation dict returns one of its keys. -/
theorem argmaxDist_mem (dist : List (String × ℕ × String)) (v : String)
    (h : argmaxDist dist = some v) : ∃ b, (v, b) ∈ dist := by
  unfold argmaxDist at h
  cases hf : dist.foldl argStep none with
  | none =>
    rw [hf] at h
    cases h
  | some p =>
    rw [hf] at h
    have hv : p.1 = v := by simpa using h
    rcases foldl_argStep_mem dist none p hf with h1 | h1
    · refine ⟨p.2, ?_⟩
      rw [← hv]
      simpa using h1
    · cases h1

/-- A successfully computed hop-longest path lists each graph node at most
once and only graph nodes. -/
theorem dag_some_nodup_mem (G : Digraph) (hG : (nodeIds G).Nodup) (p : List String)
    (h : dag_longest_path G = some p) : p.Nodup ∧ ∀ x ∈ p, x ∈ nodeIds G := by
  unfold dag_longest_path at h
  by_cases he : G.nodes.isEmpty = true
  · rw [if_pos he] at h
    have hp : p = [] := by simpa using h.symm
    subst hp
    simp
  · rw [if_neg he] at h
    cases ht : topological_sort G with
    | none =>
      rw [ht] at h
      have h2 : (none : Option (List String)) = some p := h
      cases h2
    | some topo =>
      rw [ht] at h
      have h2 : (match argmaxDist (distPass G topo) with
          | none => some ([] : List String)
          | some v => some (buildPath (distPass G topo)
              ((distPass G topo).length + 1) v)) = some p := h
      obtain ⟨htn, htm⟩ := topological_sort_nodup_mem G hG topo ht
      have hkeys : (distPass G topo).map Prod.fst = topo := distPass_keys G topo
      have hnd : ((distPass G topo).map Prod.fst).Nodup := by rw [hkeys]; exact htn
      have hinv := distPass_inv G topo
      cases ha : argmaxDist (distPass G topo) with
      | none =>
        rw [ha] at h2
        have hp : p = [] := by simpa using h2.symm
        subst hp
        simp
      | some v =>
        rw [ha] at h2
        have hp : p = buildPath (distPass G topo) ((distPass G topo).length + 1) v := by
          simpa using h2.symm
        obtain ⟨b, hbm⟩ := argmaxDist_mem _ v ha
        obtain ⟨hn1, hm1⟩ := buildPath_nodup_mem (distPass G topo) hnd hinv
          ((distPass G topo).length + 1) v b hbm
        subst hp
        refine ⟨hn1, ?_⟩
        intro x hx
        obtain ⟨⟨c, hc⟩, _⟩ := hm1 x hx
        have hxk : x ∈ (distPass G topo).map Prod.fst := by
          have h3 : (x, c).1 ∈ (distPass G topo).map Prod.fst := List.mem_map_of_mem Prod.fst hc
          simpa using h3
        exact htm x (hkeys ▸ hxk)

/-- The critical path never repeats an id and only mentions node ids of the
built graph, whatever the input. -/
theorem ccp_nodup_mem (tasks : List (String × ℚ)) (deps : List (String × List String)) :
    (calculate_critical_path tasks deps).Nodup ∧
    ∀ x ∈ calculate_critical_path tasks deps, x ∈ nodeIds (buildGraph tasks deps) := by
  unfold calculate_critical_path
  cases hd : dag_longest_path (buildGraph tasks deps) with
  | none => simp
  | some p => simpa using dag_some_nodup_mem _ (buildGraph_nodup tasks deps) p hd

/-- A `dict` assignment only rewrites the assigned key. -/
theorem updateAssoc_src (m : List (String × List String)) (k : String) (v : List String)
    (a : String) (b : List String) (h : (a, b) ∈ updateAssoc m k v) :
    (a, b) ∈ m ∨ (a = k ∧ b = v) := by
  unfold updateAssoc at h
  split at h
  · obtain ⟨p, hp, he⟩ := List.mem_map.mp h
    by_cases hpk : (p.1 == k) = true
    · rw [if_pos hpk] at he
      have ha : a = p.1 := (congrArg Prod.fst he).symm
      have hb : b = v := (congrArg Prod.snd he).symm
      have hpk2 : p.1 = k := by simpa using hpk
      exact Or.inr ⟨ha.trans hpk2, hb⟩
    · rw [if_neg hpk] at he
      exact Or.inl (he ▸ hp)
  · rcases List.mem_append.mp h with h1 | h1
    · exact Or.inl h1
    · have h2 : (a, b) = (k, v) := by simpa using h1
      exact Or.inr ⟨congrArg Prod.fst h2, congrArg Prod.snd h2⟩

/-- Every entry of the folded `dependencies` dict stems from the seed or a
task. -/
theorem foldl_updateAssoc_src :
    ∀ (ts : List TaskEstimate) (m : List (String × List String)) (a : String)
      (b : List String),
      (a, b) ∈ ts.foldl (fun m t => updateAssoc m t.id t.dependencies) m →
      (a, b) ∈ m ∨ ∃ t ∈ ts, a = t.id ∧ b = t.dependencies := by
  intro ts
  induction ts with
  | nil => exact fun m a b h => Or.inl h
  | cons t rest ih =>
    intro m a b h
    rcases ih _ a b h with h1 | h1
    · rcases updateAssoc_src m t.id t.dependencies a b h1 with h2 | h2
      · exact Or.inl h2
      · exact Or.inr ⟨t, by simp, h2⟩
    · obtain ⟨t2, ht2, hrel⟩ := h1
      exact Or.inr ⟨t2, by simp [ht2], hrel⟩

/-- Every entry of the engine's `dependencies` dict is some task's id with
its declared dependency list. -/
theorem engineDeps_src (tasks : List TaskEstimate) (a : String) (b : List String)
    (h : (a, b) ∈ engineDeps tasks) : ∃ t ∈ tasks, a = t.id ∧ b = t.dependencies := by
  rcases foldl_updateAssoc_src tasks [] a b h with h1 | h1
  · cases h1
  · exact h1

/-- Elements of the right list of a pointwise relation have related
partners on the left. -/
theorem forall2_mem_right {α β : Type} {R : α → β → Prop} :
    ∀ {as : List α} {bs : List β}, List.Forall₂ R as bs → ∀ b ∈ bs, ∃ a ∈ as, R a b := by
  intro as bs h
  induction h with
  | nil => intro b hb; cases hb
  | cons hr _ ih =>
    intro b hb
    rcases List.mem_cons.mp hb with h1 | h1
    · subst h1
      exact ⟨_, by simp, hr⟩
    · obtain ⟨a, ha, har⟩ := ih b h1
      exact ⟨a, by simp [ha], har⟩

/-- The per-task loop preserves declared ids and dependency lists
pointwise. -/
theorem processTasks_shape (rates : List (String × ℚ)) (dflt : ℚ) (fresh : ℕ → String) :
    ∀ (tds : List TaskData) (k : ℕ) (l : List (TaskEstimate × ℚ)),
      processTasks rates dflt fresh k tds = Except.ok l →
      List.Forall₂ (fun (td : TaskData) (te : TaskEstimate) =>
        (∀ i, td.id = some i → te.id = i) ∧ te.dependencies = td.dependencies)
        tds (l.map Prod.fst) := by
  intro tds
  induction tds with
  | nil =>
    intro k l h
    simp only [processTasks] at h
    rw [← Except.ok.inj h]
    simp
  | cons td rest ih =>
    intro k l h
    simp only [processTasks] at h
    cases hq : pertJ (td.optimistic_days.getD (JVal.num 5)) (td.most_likely_days.getD (JVal.num 10))
        (td.pessimistic_days.getD (JVal.num 15)) with
    | error e => rw [hq] at h; simp [bind, Except.bind] at h
    | ok q =>
      rw [hq] at h
      cases hc : taskCost rates dflt td.roles with
      | error e => rw [hc] at h; simp [bind, Except.bind] at h
      | ok c =>
        rw [hc] at h
        cases hrest : processTasks rates dflt fresh (k + 1) rest with
        | error e => rw [hrest] at h; simp [bind, Except.bind] at h
        | ok lr =>
          rw [hrest] at h
          simp only [bind, Except.bind] at h
          rw [← Except.ok.inj h]
          simp only [List.map_cons]
          refine List.Forall₂.cons ⟨?_, rfl⟩ (ih (k + 1) lr hrest)
          intro i hi
          simp [hi]

/-- With every id declared, the produced estimates carry exactly the
declared ids in order. -/
theorem forall2_ids :
    ∀ {tds : List TaskData} {tasks : List TaskEstimate},
      List.Forall₂ (fun (td : TaskData) (te : TaskEstimate) =>
        (∀ i, td.id = some i → te.id = i) ∧ te.dependencies = td.dependencies) tds tasks →
      (∀ td ∈ tds, td.id.isSome = true) →
      tasks.map (fun te => te.id) = tds.filterMap (fun td => td.id) := by
  intro tds tasks h
  induction h with
  | nil => intro _; simp
  | @cons td te tds2 tasks2 hr hrest ih =>
    intro hids
    obtain ⟨i, hi⟩ := Option.isSome_iff_exists.mp (hids td (by simp))
    have hte : te.id = i := hr.1 i hi
    simp only [List.map_cons, List.filterMap_cons, hi, hte]
    rw [ih (fun x hx => hids x (by simp [hx]))]

/-- C3 counterexample: with `T2` declaring the dangling dependency `T99`,
the produced estimate's critical path is `[T99, T2]` although `T99` is not
an id of any task in the list. -/
theorem C3_dangling_id_in_path :
    (analyze_project (fun _ => ("u")) 0
        [ { id := some ("T1"), optimistic_days := none, most_likely_days := none,
            pessimistic_days := none, dependencies := [], roles := [] }
        , { id := some ("T2"), optimistic_days := none, most_likely_days := none,
            pessimistic_days := none, dependencies := [("T99")], roles := [] } ]).map
        (fun r => (r.critical_path, r.tasks.map (fun t => t.id)))
      = Except.ok ([("T99"), ("T2")], [("T1"), ("T2")]) ∧
    (([("T1"), ("T2")] : List String).contains ("T99")) = false := by
  exact ⟨rfl, by decide⟩

/-- C3 (amended): on a completed run whose tasks all declare pairwise
distinct ids and whose declared dependencies all refer to tasks in the
list, every id in the critical path occurs exactly once in the task list;
and the critical path never contains duplicates (the counterexample forces
the added hypothesis: a dangling dependency id becomes a graph node and can
appear in the path without being a task id; §4.3 already declares duplicate
task ids undefined behaviour). -/
theorem C3_path_ids_in_tasks (fresh : ℕ → String) (now : ℚ) (tds : List TaskData)
    (r : ProjectEstimate)
    (hok : analyze_project fresh now tds = Except.ok r)
    (hids : ∀ td ∈ tds, td.id.isSome = true)
    (hnodup : (tds.filterMap (fun td => td.id)).Nodup)
    (hdeps : ∀ td ∈ tds, ∀ d ∈ td.dependencies, d ∈ tds.filterMap (fun td2 => td2.id)) :
    r.critical_path.Nodup ∧
    ∀ x ∈ r.critical_path, (tds.filterMap (fun td => td.id)).count x = 1 := by
  obtain ⟨pairs, hp, hr⟩ := analyze_ok_elim DEFAULT_RATES 1000 fresh now tds r hok
  subst hr
  have hshape := processTasks_shape DEFAULT_RATES 1000 fresh tds 0 pairs hp
  have hidseq : (pairs.map Prod.fst).map (fun te => te.id) = tds.filterMap (fun td => td.id) :=
    forall2_ids hshape hids
  have hcp : (assembleEstimate now pairs).critical_path
      = calculate_critical_path ((pairs.map Prod.fst).map (fun t => (t.id, t.expected_days)))
        (engineDeps (pairs.map Prod.fst)) := rfl
  obtain ⟨hnd, hmem⟩ := ccp_nodup_mem
    ((pairs.map Prod.fst).map (fun t => (t.id, t.expected_days)))
    (engineDeps (pairs.map Prod.fst))
  rw [hcp]
  refine ⟨hnd, ?_⟩
  intro x hx
  have hnode := hmem x hx
  rcases buildGraph_nodeIds_src _ _ x hnode with h1 | ⟨p, hpmem, hp1⟩
  · have hx2 : x ∈ (pairs.map Prod.fst).map (fun te => te.id) := by
      rw [List.map_map] at h1
      simpa using h1
    exact List.count_eq_one_of_mem hnodup (hidseq ▸ hx2)
  · obtain ⟨t, htmem, hteq⟩ := engineDeps_src (pairs.map Prod.fst) p.1 p.2 (by simpa using hpmem)
    rcases hp1 with hkey | hval
    · have hx2 : x ∈ (pairs.map Prod.fst).map (fun te => te.id) := by
        rw [hkey, hteq.1]
        exact List.mem_map_of_mem _ htmem
      exact List.count_eq_one_of_mem hnodup (hidseq ▸ hx2)
    · obtain ⟨td, htd, hrel⟩ := forall2_mem_right hshape t htmem
      have hxdep : x ∈ td.dependencies := by
        rw [← hrel.2, ← hteq.2]
        exact hval
      exact List.count_eq_one_of_mem hnodup (hdeps td htd x hxdep)

/-- Witness for C3 at the honest two-task chain `T2 → T1`: the critical
path `[T1, T2]` has no duplicates and each of its ids occurs exactly once
in the task list. -/
theorem C3_path_ids_in_tasks_witness :
    c3Estimate.critical_path.Nodup ∧
    (c3TDs.filterMap (fun td => td.id)).count ("T1") = 1 ∧
    (c3TDs.filterMap (fun td => td.id)).count ("T2") = 1 := by
  have hpert : pertJ (JVal.num 5) (JVal.num 10) (JVal.num 15) = Except.ok (5, 10, 15, 10) := by
    simp [pertJ, calculate_pert_estimate]
    norm_num
  have hp : processTasks DEFAULT_RATES 1000 (fun _ => ("u")) 0 c3TDs
      = Except.ok [(c3TaskA, 0), (c3TaskB, 0)] := by
    simp [processTasks, c3TDs, c3TaskA, c3TaskB, hpert, taskCost, pure, Except.pure,
      bind, Except.bind]
  have hcp : calculate_critical_path [(("T1"), (10 : ℚ)), (("T2"), 10)]
      [(("T1"), ([] : List String)), (("T2"), [("T1")])] = [("T1"), ("T2")] := by decide
  have hok : analyze_project (fun _ => ("u")) 0 c3TDs = Except.ok c3Estimate := by
    simp only [analyze_project, analyze_engine, hp, except_map_ok, assembleEstimate, engineDeps,
      List.foldl, List.map, c3TaskA, c3TaskB]
    simp +decide [updateAssoc, hcp, c3Estimate, c3TaskA, c3TaskB]
    norm_num
  have h := C3_path_ids_in_tasks (fun _ => ("u")) 0 c3TDs c3Estimate hok
    (by decide) (by decide) (by decide)
  exact ⟨h.1, h.2 ("T1") (by decide), h.2 ("T2") (by decide)⟩

end ITPlanner
